import Mathlib

/-!
# Verification of the ytgui binary-provisioning pipeline and progress tracker

Shallow embedding of the Go sources of `ytgui`:
* `internal/downloader/binaries.go` — checksum resolution, download with
  retries, format sniffing, zip extraction, atomic install, `EnsureBinary`.
* the updater `downloadLatest` / `TryUpdateYTDLP` (checksum-verified revision).
* the UI progress tracker `downloadProgressTracker` from the main UI file.

Go strings are modelled as `List Char`; filesystems as functions
`List Char → Option (List Nat)` from paths to byte contents; the network and
the SHA-256 hash as oracle fields of an environment record.  Rationals stand
for Go `float64` (all arithmetic appearing in the tracker is exact at the
granularity the claims discuss).
-/

namespace Ytgui

/-- Go string model: a list of characters. -/
abbrev GoStr := List Char

/-- Byte-sequence model for file contents. -/
abbrev Bytes := List Nat

/-- Convert a Lean string literal to the Go-string model. -/
def gs (s : String) : GoStr := s.toList

/-- Decidable equality for `Except` results. -/
instance {α β : Type} [DecidableEq α] [DecidableEq β] : DecidableEq (Except α β) := fun x y =>
  match x, y with
  | .ok a, .ok b =>
    if h : a = b then isTrue (by rw [h]) else isFalse (fun hh => by cases hh; exact h rfl)
  | .error a, .error b =>
    if h : a = b then isTrue (by rw [h]) else isFalse (fun hh => by cases hh; exact h rfl)
  | .ok _, .error _ => isFalse (fun hh => by cases hh)
  | .error _, .ok _ => isFalse (fun hh => by cases hh)

/-- `unicode.IsSpace` restricted to the code points Go treats as space in the
Latin-1 range (space, tab, newline, vertical tab, form feed, carriage return,
NEL, NBSP). -/
def isGoSpace (c : Char) : Bool :=
  c = ' ' || c = '\t' || c = '\n' || c = Char.ofNat 11 || c = Char.ofNat 12 ||
  c = '\r' || c = Char.ofNat 0x85 || c = Char.ofNat 0xA0

/-- RE2 `\s` character class: `[\t\n\f\r ]`. -/
def isPerlSpace (c : Char) : Bool :=
  c = ' ' || c = '\t' || c = '\n' || c = Char.ofNat 12 || c = '\r'

/-- RE2 word character (`\w`, used by the `\b` boundary): `[0-9A-Za-z_]`. -/
def isWordChar (c : Char) : Bool :=
  (('0' ≤ c && c ≤ '9') || ('a' ≤ c && c ≤ 'z') || ('A' ≤ c && c ≤ 'Z') || c = '_')

/-- Hexadecimal digit as matched by `(?i)[a-f0-9]`. -/
def isHexChar (c : Char) : Bool :=
  ('0' ≤ c && c ≤ '9') || ('a' ≤ c && c ≤ 'f') || ('A' ≤ c && c ≤ 'F')

/-- `strings.ToLower` on one ASCII character. -/
def toLowerChar (c : Char) : Char :=
  if 'A' ≤ c && c ≤ 'Z' then Char.ofNat (c.toNat + 32) else c

/-- `strings.ToLower` (ASCII). -/
def toLowerStr (s : GoStr) : GoStr := s.map toLowerChar

/-- `strings.TrimSpace`. -/
def trimSpace (s : GoStr) : GoStr :=
  ((s.dropWhile isGoSpace).reverse.dropWhile isGoSpace).reverse

/-- `strings.HasPrefix s pre` (argument order: pattern first). -/
def strStarts : GoStr → GoStr → Bool
  | [], _ => true
  | _ :: _, [] => false
  | p :: ps, c :: cs => p = c && strStarts ps cs

/-- `strings.HasSuffix s suf`. -/
def strEnds (suf s : GoStr) : Bool := strStarts suf.reverse s.reverse

/-- `strings.Contains s sub`. -/
def containsSub (s sub : GoStr) : Bool := s.tails.any (strStarts sub)

/-- `strings.Split text "\n"`. -/
def splitLines (text : GoStr) : List GoStr := text.splitOn '\n'

/-- `strings.Fields` — whitespace-separated fields, no empties. -/
def fieldsGo (s : GoStr) : List GoStr :=
  (s.splitOnP isGoSpace).filter (· ≠ [])

/-- `strings.TrimLeft s "*"`. -/
def trimLeadStars (s : GoStr) : GoStr := s.dropWhile (· = '*')

/-- `path.Base`. -/
def pathBase (s : GoStr) : GoStr :=
  if s = [] then gs "."
  else
    let t := (s.reverse.dropWhile (· = '/')).reverse
    if t = [] then gs "/"
    else (t.reverse.takeWhile (· ≠ '/')).reverse

/-- `filepath.ToSlash` (backslashes become slashes). -/
def toSlash (s : GoStr) : GoStr := s.map (fun c => if c = '\\' then '/' else c)

/-- Numeric value of a digit string. -/
def digitsVal (ds : GoStr) : Nat := ds.foldl (fun a c => a * 10 + (c.toNat - 48)) 0

/-- Accumulator pass of `wordRuns`: `acc` holds the current (reversed) run
of word characters. -/
def wordRunsAux : List Char → List Char → List GoStr
  | [], acc => if acc = [] then [] else [acc.reverse]
  | c :: rest, acc =>
    if isWordChar c then wordRunsAux rest (c :: acc)
    else if acc = [] then wordRunsAux rest []
    else acc.reverse :: wordRunsAux rest []

/-- Maximal runs of word characters in a string, in order.  The RE2 pattern
`(?i)\b([a-f0-9]{64})\b` matches exactly those runs of length 64 whose
characters are all hexadecimal, because a word boundary can never fall inside
a run of word characters. -/
def wordRuns (s : GoStr) : List GoStr := wordRunsAux s []

/-- All matches of `sha256LineRE` (`(?i)\b([a-f0-9]{64})\b`) in a string,
in order of occurrence. -/
def sha256Matches (s : GoStr) : List GoStr :=
  (wordRuns s).filter (fun r => r.length = 64 && r.all isHexChar)

/-- `strings.Index s "("`-style lookup: index of the first occurrence of a
character, if any. -/
def idxOfChar (s : GoStr) (c : Char) : Option Nat :=
  s.findIdx? (· = c)

/-- The conditions under which a digest-carrying line of a checksum manifest
is taken to name the target file, mirroring the three checks of
`parseSHA256FromList` in `binaries.go`:
`strings.Contains(line, targetBase)`; a `SHA256 (name) = hash` header whose
parenthesised name matches; or a last whitespace-field (with leading `*`
stripped) whose base name matches. -/
def namesTarget (line targetBase : GoStr) : Bool :=
  containsSub line targetBase ||
  (containsSub line (gs "SHA256 (") &&
    (match idxOfChar line '(', idxOfChar line ')' with
     | some op, some cl =>
        decide (op < cl) &&
        toLowerStr (pathBase (trimSpace ((line.drop (op + 1)).take (cl - (op + 1))))) = targetBase
     | _, _ => false)) ||
  (let fs := fieldsGo line
   decide (2 ≤ fs.length) &&
   toLowerStr (pathBase (trimSpace (trimLeadStars (fs.getLastD [])))) = targetBase)

/-- Loop body of `parseSHA256FromList`: walk the manifest lines carrying the
first digest seen so far and the count of non-empty lines. -/
def parseSHA256Lines (targetName targetBase : GoStr) :
    List GoStr → Option GoStr → Nat → Except GoStr GoStr
  | [], firstDigest, nonEmptyLines =>
    match firstDigest with
    | some d => if nonEmptyLines = 1 then .ok d
                else .error (gs "no sha256 found for " ++ targetName)
    | none => .error (gs "no sha256 found for " ++ targetName)
  | l :: rest, firstDigest, nonEmptyLines =>
    let line := trimSpace l
    if line = [] then parseSHA256Lines targetName targetBase rest firstDigest nonEmptyLines
    else
      match sha256Matches line with
      | [] => parseSHA256Lines targetName targetBase rest firstDigest (nonEmptyLines + 1)
      | m :: _ =>
        let digest := toLowerStr m
        let firstDigest := match firstDigest with
          | some d => some d
          | none => some digest
        if namesTarget line targetBase then .ok digest
        else parseSHA256Lines targetName targetBase rest firstDigest (nonEmptyLines + 1)

/-- `parseSHA256FromList` from `binaries.go`: find the digest for
`targetName` in a checksum manifest, falling back to the sole digest of a
one-line manifest. -/
def parseSHA256FromList (text targetName : GoStr) : Except GoStr GoStr :=
  let targetBase := toLowerStr (pathBase (trimSpace targetName))
  if targetBase = [] then .error (gs "checksum target name is empty")
  else parseSHA256Lines targetName targetBase (splitLines text) none 0

/-- `normalizeSHA256` from `binaries.go`. -/
def normalizeSHA256 (v : GoStr) : Except GoStr GoStr :=
  let sum := toLowerStr (trimSpace v)
  if sha256Matches sum ≠ [] && sum.length = 64 then .ok sum
  else .error (gs "invalid sha256 digest")

/-! ## Progress tracker (UI file) -/

/-- Try to match the leading tag alternation `\[(download|ffmpeg)\]` of
`percentRegex` at the head of `s`; on success return the remainder. -/
def matchTagAt (s : GoStr) : Option GoStr :=
  if strStarts (gs "[download]") s then some (s.drop 10)
  else if strStarts (gs "[ffmpeg]") s then some (s.drop 8)
  else none

/-- Match `\s+(\d+(\.\d+)?)%` at the head of `s`, returning the digit text of
the percentage and its exact numeric value.  The pattern is deterministic:
`\s` and `\d` are disjoint, extra digits cannot be absorbed by `\.` or `%`,
and the optional fraction group is forced exactly when a dot followed by a
digit is present. -/
def matchPercentAfter (s : GoStr) : Option (GoStr × ℚ) :=
  let ws := s.takeWhile isPerlSpace
  if ws = [] then none
  else
    let s1 := s.drop ws.length
    let d1 := s1.takeWhile Char.isDigit
    if d1 = [] then none
    else
      match s1.drop d1.length with
      | '.' :: s3 =>
        let d2 := s3.takeWhile Char.isDigit
        if d2 = [] then none
        else
          match s3.drop d2.length with
          | '%' :: _ =>
              some (d1 ++ '.' :: d2, (digitsVal d1 : ℚ) + (digitsVal d2 : ℚ) / (10 : ℚ) ^ d2.length)
          | _ => none
      | '%' :: _ => some (d1, (digitsVal d1 : ℚ))
      | _ => none

/-- Leftmost match of `percentRegex`
(`\[(download|ffmpeg)\]\s+(\d+(\.\d+)?)%`): the percentage text and value. -/
def percentFind : GoStr → Option (GoStr × ℚ)
  | [] => none
  | c :: rest =>
    match matchTagAt (c :: rest) with
    | some after =>
      match matchPercentAfter after with
      | some r => some r
      | none => percentFind rest
    | none => percentFind rest

/-- `parseProgress` from the UI file: percentage of a progress line as a
fraction in `[0, 1]`-intent units (`p / 100`), or nothing. -/
def parseProgress (line : GoStr) : Option ℚ :=
  (percentFind line).map (fun r => r.2 / 100)

/-- Match `ETA\s+([0-9:]+)` at the head of `s`. -/
def matchETAAt (s : GoStr) : Option GoStr :=
  if strStarts (gs "ETA") s then
    let s1 := s.drop 3
    let ws := s1.takeWhile isPerlSpace
    if ws = [] then none
    else
      let d := (s1.drop ws.length).takeWhile (fun c => c.isDigit || c = ':')
      if d = [] then none else some d
  else none

/-- Leftmost match of `etaRegex`. -/
def etaFind : GoStr → Option GoStr
  | [] => none
  | c :: rest =>
    match matchETAAt (c :: rest) with
    | some d => some d
    | none => etaFind rest

/-- `compactStatus` from the UI file. -/
def compactStatus (line : GoStr) : GoStr :=
  match percentFind line with
  | none => []
  | some (pct, _) =>
    match etaFind line with
    | some eta => gs "Downloading " ++ pct ++ gs "% (ETA " ++ eta ++ gs ")"
    | none => gs "Downloading " ++ pct ++ gs "%"

/-- State of `downloadProgressTracker` (the mutex is irrelevant in the
sequential model; `seenDest` is the key set of the Go map). -/
structure downloadProgressTracker where
  totalStages : Nat
  stageIndex : Nat
  hasStage : Bool
  stageProgress : ℚ
  seenDest : List GoStr
deriving DecidableEq, Repr

/-- `newDownloadProgressTracker`: `nil` for playlists, otherwise stage count
from quality and subtitle choice. -/
def newDownloadProgressTracker (quality : GoStr) (subOptPresent playlist : Bool) :
    Option downloadProgressTracker :=
  if playlist then none
  else
    let stages := if quality ≠ gs "Audio Only" then 2 else 1
    let stages := if subOptPresent then stages + 1 else stages
    let stages := if stages < 1 then 1 else stages
    some { totalStages := stages, stageIndex := 0, hasStage := false,
           stageProgress := 0, seenDest := [] }

/-- Result of one `update` call: the successor state plus the
`(fraction, statusText, updated)` triple the method returns. -/
structure UpdRes where
  state : downloadProgressTracker
  frac : ℚ
  status : GoStr
  updated : Bool
deriving DecidableEq, Repr

/-- The destination marker `"[download] Destination:"`. -/
def destMarker : GoStr := gs "[download] Destination:"

/-- `downloadProgressTracker.update` on one raw line. -/
def downloadProgressTracker.update (t : downloadProgressTracker) (rawLine : GoStr) : UpdRes :=
  let line := trimSpace rawLine
  if strStarts destMarker line then
    let dest := trimSpace (line.drop destMarker.length)
    let t :=
      if t.seenDest.contains dest then t
      else
        let t := { t with seenDest := dest :: t.seenDest }
        if !t.hasStage then
          { t with hasStage := true, stageIndex := 0, stageProgress := 0 }
        else if t.stageIndex < t.totalStages - 1 then
          { t with stageIndex := t.stageIndex + 1, stageProgress := 0 }
        else t
    { state := t, frac := (t.stageIndex : ℚ) / (t.totalStages : ℚ),
      status := gs "Downloading (" ++ gs (toString (t.stageIndex + 1)) ++ gs "/" ++
        gs (toString t.totalStages) ++ gs ")...",
      updated := true }
  else
    match parseProgress rawLine with
    | some p =>
      if t.hasStage then
        let p := if p < t.stageProgress then t.stageProgress else p
        let t := { t with stageProgress := p }
        { state := t, frac := ((t.stageIndex : ℚ) + p) / (t.totalStages : ℚ),
          status := compactStatus rawLine, updated := true }
      else updateTail t line
    | none => updateTail t line
where
  /-- The `[Merger]` / `[EmbedSubtitle]` / fall-through tail of `update`. -/
  updateTail (t : downloadProgressTracker) (line : GoStr) : UpdRes :=
    if containsSub line (gs "[Merger]") then
      { state := t, frac := ((t.totalStages : ℚ) - 1/10) / (t.totalStages : ℚ),
        status := gs "Merging formats...", updated := true }
    else if containsSub line (gs "[EmbedSubtitle]") then
      { state := t, frac := ((t.totalStages : ℚ) - 1/20) / (t.totalStages : ℚ),
        status := gs "Embedding subtitles...", updated := true }
    else { state := t, frac := 0, status := [], updated := false }

/-- Feed a list of raw lines to a tracker, collecting the fractions of the
calls that report an update (`updated = true`). -/
def runFractions (t : downloadProgressTracker) : List GoStr → List ℚ
  | [] => []
  | l :: rest =>
    let r := t.update l
    if r.updated then r.frac :: runFractions r.state rest
    else runFractions r.state rest

/-- Final tracker state after feeding a list of raw lines. -/
def runState (t : downloadProgressTracker) : List GoStr → downloadProgressTracker
  | [] => t
  | l :: rest => runState (t.update l).state rest

/-! ## Filesystem, network oracles, and error model -/

/-- Deterministic filesystem model: paths to byte contents. -/
abbrev FS := GoStr → Option Bytes

/-- `os.WriteFile` / successful creation. -/
def fsWrite (fs : FS) (p : GoStr) (b : Bytes) : FS :=
  fun q => if q = p then some b else fs q

/-- `os.Remove` (removing a missing file is a no-op at the FS level). -/
def fsRemove (fs : FS) (p : GoStr) : FS :=
  fun q => if q = p then none else fs q

/-- Go error values, classified the way `shouldRetryDownload` inspects them. -/
inductive GoErr where
  | deadlineExceeded : GoErr
  | netFault (isTimeout isTemporary : Bool) : GoErr
  | statusFault (status : GoStr) : GoErr
  | canceled : GoErr
  | fault (msg : GoStr) : GoErr
deriving DecidableEq, Repr

/-- A zip archive entry (name and stored bytes). -/
structure ZipEntry where
  name : GoStr
  data : Bytes
deriving DecidableEq, Repr

/-- Oracle environment: everything the downloader observes from outside its
own control flow (hash function, environment variables, HTTP responses,
temp-file naming, zip decoding, cancellation). -/
structure Env where
  hash : Bytes → GoStr
  userCacheDir : GoStr
  envYTDLPSHA : GoStr
  envFFmpegSHA : GoStr
  envFFmpegSHAURL : GoStr
  envFFmpegURLVal : GoStr
  fetchText : GoStr → Except GoErr GoStr
  attempts : GoStr → Nat → Except GoErr Bytes
  doGet : GoStr → Except GoErr Bytes
  tmpName : GoStr → GoStr
  readZip : Bytes → Except GoErr (List ZipEntry)
  ctxCanceled : Bool

/-- `shouldRetryDownload` from `binaries.go`. -/
def shouldRetryDownload : GoErr → Bool
  | .deadlineExceeded => true
  | .netFault t temp => t || temp
  | _ => false

/-- `looksLikeWindowsExe`: first two bytes are `MZ` (0x4D 0x5A). -/
def looksLikeWindowsExeFS (fs : FS) (p : GoStr) : Except GoErr Bool :=
  match fs p with
  | none => .error (.fault (gs "open"))
  | some b => .ok (decide (b.take 2 = [77, 90]))

/-- `looksLikeZip`: first four bytes are `PK\x03\x04`. -/
def looksLikeZipFS (fs : FS) (p : GoStr) : Except GoErr Bool :=
  match fs p with
  | none => .error (.fault (gs "open"))
  | some b => .ok (decide (b.take 4 = [80, 75, 3, 4]))

/-- `computeFileSHA256` (hashing delegated to the oracle). -/
def computeFileSHA256 (env : Env) (fs : FS) (p : GoStr) : Except GoErr GoStr :=
  match fs p with
  | none => .error (.fault (gs "open"))
  | some b => .ok (env.hash b)

/-- `maxDownloadAttempts` from `binaries.go`. -/
def maxDownloadAttempts : Nat := 3

/-- Result of `downloadToTempOnce`. -/
structure OnceRes where
  fs : FS
  res : Except GoErr GoStr

/-- `downloadToTempOnce`: one GET attempt; on success the body is streamed
into a fresh temp file, on any failure the partial temp file is removed
(modelled by leaving the filesystem unchanged). -/
def downloadToTempOnce (env : Env) (fs : FS) (url pfx : GoStr) (attempt : Nat) : OnceRes :=
  match env.attempts url attempt with
  | .error e => { fs := fs, res := .error e }
  | .ok body =>
    let tmp := env.tmpName pfx
    { fs := fsWrite fs tmp body, res := .ok tmp }

/-- Result of `downloadToTemp`: final filesystem, HTTP requests issued,
backoff waits performed, and the outcome. -/
structure DTRes where
  fs : FS
  requests : Nat
  waits : Nat
  res : Except GoErr GoStr

/-- The attempt loop of `downloadToTemp`.  The first argument after the
state is fuel (always `maxDownloadAttempts + 1 - attempt`, so the
out-of-fuel branch is unreachable: the loop breaks on the final attempt);
then the attempt counter and the accumulated waits and requests.  A failed
attempt leaves the filesystem unchanged (the partial temp file was removed),
so the loop re-enters with the same `fs`. -/
def dtLoop (env : Env) (url pfx : GoStr) (fs : FS) :
    Nat → Nat → Nat → Nat → DTRes
  | 0, _, waits, requests =>
    { fs := fs, requests := requests, waits := waits,
      res := .error (.fault (gs "unreachable")) }
  | fuel + 1, attempt, waits, requests =>
    let once := downloadToTempOnce env fs url pfx attempt
    match once.res with
    | .ok tmp =>
      { fs := once.fs, requests := requests + 1, waits := waits, res := .ok tmp }
    | .error e =>
      if env.ctxCanceled then
        { fs := fs, requests := requests + 1, waits := waits, res := .error .canceled }
      else if attempt = maxDownloadAttempts || !shouldRetryDownload e then
        { fs := fs, requests := requests + 1, waits := waits, res := .error e }
      else
        dtLoop env url pfx fs fuel (attempt + 1) (waits + 1) (requests + 1)

/-- `downloadToTemp` from `binaries.go`. -/
def downloadToTemp (env : Env) (fs : FS) (url pfx : GoStr) : DTRes :=
  dtLoop env url pfx fs maxDownloadAttempts 1 0 0

/-- `replaceFileAtomic`: remove a stale staging sibling, rename the source
into the sibling, set the mode bit, rename the sibling over the target. -/
def replaceFileAtomic (fs : FS) (dst src : GoStr) : FS × Except GoErr Unit :=
  let tmp := dst ++ gs ".new"
  let fs1 := fsRemove fs tmp
  match fs1 src with
  | none => (fs1, .error (.fault (gs "rename")))
  | some b =>
    let fs2 := fsWrite (fsRemove fs1 src) tmp b
    let fs3 := fsWrite (fsRemove fs2 tmp) dst b
    (fs3, .ok ())

/-! ## Zip extraction -/

/-- One step of the candidate-selection loop in `extractFFmpegFromZip`:
skip entries whose lowered slash-path does not end in `/ffmpeg.exe`; adopt a
matching entry when none is selected yet or when its path contains
`/bin/ffmpeg.exe`. -/
def selectFFmpegStep (sel : Option ZipEntry) (f : ZipEntry) : Option ZipEntry :=
  let name := toLowerStr (toSlash f.name)
  if !strEnds (gs "/ffmpeg.exe") name then sel
  else if sel.isNone || containsSub name (gs "/bin/ffmpeg.exe") then some f
  else sel

/-- The selected archive entry of `extractFFmpegFromZip`. -/
def selectFFmpegEntry (entries : List ZipEntry) : Option ZipEntry :=
  entries.foldl selectFFmpegStep none

/-- Result of `extractFFmpegFromZip`. -/
structure ExtractRes where
  fs : FS
  installAttempts : Nat
  res : Except GoErr Unit

/-- `extractFFmpegFromZip` from `binaries.go`. -/
def extractFFmpegFromZip (env : Env) (fs : FS) (zipPath dst : GoStr) : ExtractRes :=
  match fs zipPath with
  | none => { fs := fs, installAttempts := 0, res := .error (.fault (gs "open zip")) }
  | some zipBytes =>
    match env.readZip zipBytes with
    | .error e => { fs := fs, installAttempts := 0, res := .error e }
    | .ok entries =>
      match selectFFmpegEntry entries with
      | none =>
        { fs := fs, installAttempts := 0,
          res := .error (.fault (gs "ffmpeg.exe not found in archive")) }
      | some f =>
        let tmp := env.tmpName (gs "ytgui-ffmpeg-*.exe")
        let fs := fsWrite fs tmp f.data
        match looksLikeWindowsExeFS fs tmp with
        | .error e => { fs := fsRemove fs tmp, installAttempts := 0, res := .error e }
        | .ok isExe =>
          if !isExe then
            { fs := fsRemove fs tmp, installAttempts := 0,
              res := .error (.fault (gs "archive ffmpeg payload is not a Windows executable")) }
          else
            let pr := replaceFileAtomic fs dst tmp
            { fs := pr.1, installAttempts := 1, res := pr.2 }

/-! ## Checksum resolution -/

/-- URL of the yt-dlp release checksum manifest. -/
def latestBinaryChecksumsURL : GoStr :=
  gs "https://github.com/yt-dlp/yt-dlp/releases/latest/download/SHA2-256SUMS"

/-- URL of the yt-dlp release binary. -/
def latestBinaryURL : GoStr :=
  gs "https://github.com/yt-dlp/yt-dlp/releases/latest/download/yt-dlp.exe"

/-- Default ffmpeg archive URL. -/
def defaultFFmpegArchiveURL : GoStr :=
  gs "https://www.gyan.dev/ffmpeg/builds/ffmpeg-release-essentials.zip"

/-- `ffmpegSourceURL`: environment override or the default archive. -/
def ffmpegSourceURL (env : Env) : GoStr :=
  let v := trimSpace env.envFFmpegURLVal
  if v ≠ [] then v else defaultFFmpegArchiveURL

/-- Remainder of `s` after the first occurrence of `sub`, if any. -/
def afterSub (sub : GoStr) : GoStr → Option GoStr
  | [] => if sub = [] then some [] else none
  | c :: rest =>
    if strStarts sub (c :: rest) then some ((c :: rest).drop sub.length)
    else afterSub sub rest

/-- Path component of a URL, modelling `url.Parse(...).Path` for the
well-formed absolute http(s) URLs the downloader builds: the part after the
host, stopping at a query or fragment. -/
def urlPathOf (u : GoStr) : GoStr :=
  let rest := match afterSub (gs "://") u with
    | some r => r.dropWhile (· ≠ '/')
    | none => u
  rest.takeWhile (fun c => c ≠ '?' && c ≠ '#')

/-- `checksumTargetName`: base name of the URL path. -/
def checksumTargetName (srcURL : GoStr) : GoStr :=
  pathBase (urlPathOf srcURL)

/-- A checksum resolver outcome together with the HTTP requests it issued. -/
structure RRes where
  res : Except GoErr GoStr
  requests : Nat

/-- `resolveYTDLPSHA256`: environment override, else fetch and parse the
release checksum manifest. -/
def resolveYTDLPSHA256 (env : Env) : RRes :=
  let v := trimSpace env.envYTDLPSHA
  if v ≠ [] then
    { res := (normalizeSHA256 v).mapError .fault, requests := 0 }
  else
    match env.fetchText latestBinaryChecksumsURL with
    | .error e => { res := .error e, requests := 1 }
    | .ok text =>
      match parseSHA256FromList text (gs "yt-dlp.exe") with
      | .error e => { res := .error (.fault e), requests := 1 }
      | .ok sum => { res := (normalizeSHA256 sum).mapError .fault, requests := 1 }

/-- The BtbN latest-release download directory. -/
def btbnLatest : GoStr :=
  gs "https://github.com/BtbN/FFmpeg-Builds/releases/latest/download/"

/-- Candidate manifest URLs tried by `resolveFFmpegSHA256`, in order. -/
def ffmpegChecksumCandidates (env : Env) (srcURL : GoStr) : List GoStr :=
  (if trimSpace env.envFFmpegSHAURL ≠ [] then [trimSpace env.envFFmpegSHAURL] else []) ++
  (if strStarts btbnLatest srcURL then [btbnLatest ++ gs "checksums.sha256"] else []) ++
  [srcURL ++ gs ".sha256", srcURL ++ gs ".sha256.txt"]

/-- The candidate loop of `resolveFFmpegSHA256`: a fetch or parse failure is
non-fatal and advances to the next candidate; a successful parse returns the
normalization result immediately. -/
def resolveFFmpegLoop (env : Env) (targetName : GoStr) :
    List GoStr → Option GoErr → Nat → RRes
  | [], lastErr, reqs =>
    match lastErr with
    | some e => { res := .error e, requests := reqs }
    | none => { res := .error (.fault (gs "no checksum candidates configured")), requests := reqs }
  | c :: rest, lastErr, reqs =>
    match env.fetchText c with
    | .error e => resolveFFmpegLoop env targetName rest (some e) (reqs + 1)
    | .ok text =>
      match parseSHA256FromList text targetName with
      | .error pe => resolveFFmpegLoop env targetName rest (some (.fault pe)) (reqs + 1)
      | .ok sum => { res := (normalizeSHA256 sum).mapError .fault, requests := reqs + 1 }

/-- `resolveFFmpegSHA256`: environment override, else the candidate loop. -/
def resolveFFmpegSHA256 (env : Env) (srcURL : GoStr) : RRes :=
  let v := trimSpace env.envFFmpegSHA
  if v ≠ [] then { res := (normalizeSHA256 v).mapError .fault, requests := 0 }
  else resolveFFmpegLoop env (checksumTargetName srcURL)
        (ffmpegChecksumCandidates env srcURL) none 0

/-! ## Provisioning orchestrator -/

/-- Result of `downloadBinaryByName`: final filesystem, HTTP requests issued,
number of `replaceFileAtomic` invocations, the expected digest that was
resolved (if resolution succeeded), and the outcome. -/
structure BinRes where
  fs : FS
  requests : Nat
  installAttempts : Nat
  usedDigest : Option GoStr
  res : Except GoErr Unit

/-- `downloadBinaryByName` from `binaries.go`: resolve the expected digest,
download, verify SHA-256, classify by magic bytes, optionally extract from a
zip, and atomically install.  The downloaded temp file is removed on every
path (the deferred `os.Remove`). -/
def downloadBinaryByName (env : Env) (fs : FS) (name path : GoStr) : BinRes :=
  if toLowerStr name = gs "yt-dlp.exe" then
    let rr := resolveYTDLPSHA256 env
    match rr.res with
    | .error e =>
      { fs := fs, requests := rr.requests, installAttempts := 0,
        usedDigest := none, res := .error e }
    | .ok expectedSHA =>
      let dt := downloadToTemp env fs latestBinaryURL (gs "ytgui-ytdlp-*")
      match dt.res with
      | .error e =>
        { fs := dt.fs, requests := rr.requests + dt.requests, installAttempts := 0,
          usedDigest := some expectedSHA, res := .error e }
      | .ok tmp =>
        match computeFileSHA256 env dt.fs tmp with
        | .error e =>
          { fs := fsRemove dt.fs tmp, requests := rr.requests + dt.requests,
            installAttempts := 0, usedDigest := some expectedSHA, res := .error e }
        | .ok actual =>
          if actual ≠ expectedSHA then
            { fs := fsRemove dt.fs tmp, requests := rr.requests + dt.requests,
              installAttempts := 0, usedDigest := some expectedSHA,
              res := .error (.fault (gs "yt-dlp.exe sha256 mismatch")) }
          else
            match looksLikeWindowsExeFS dt.fs tmp with
            | .error e =>
              { fs := fsRemove dt.fs tmp, requests := rr.requests + dt.requests,
                installAttempts := 0, usedDigest := some expectedSHA, res := .error e }
            | .ok isExe =>
              if !isExe then
                { fs := fsRemove dt.fs tmp, requests := rr.requests + dt.requests,
                  installAttempts := 0, usedDigest := some expectedSHA,
                  res := .error (.fault (gs "downloaded yt-dlp is not a Windows executable")) }
              else
                let pr := replaceFileAtomic dt.fs path tmp
                { fs := fsRemove pr.1 tmp, requests := rr.requests + dt.requests,
                  installAttempts := 1, usedDigest := some expectedSHA, res := pr.2 }
  else if toLowerStr name = gs "ffmpeg.exe" then
    let srcURL := ffmpegSourceURL env
    let rr := resolveFFmpegSHA256 env srcURL
    match rr.res with
    | .error e =>
      { fs := fs, requests := rr.requests, installAttempts := 0,
        usedDigest := none, res := .error e }
    | .ok expectedSHA =>
      let dt := downloadToTemp env fs srcURL (gs "ytgui-ffmpeg-*")
      match dt.res with
      | .error e =>
        { fs := dt.fs, requests := rr.requests + dt.requests, installAttempts := 0,
          usedDigest := some expectedSHA, res := .error e }
      | .ok tmp =>
        match computeFileSHA256 env dt.fs tmp with
        | .error e =>
          { fs := fsRemove dt.fs tmp, requests := rr.requests + dt.requests,
            installAttempts := 0, usedDigest := some expectedSHA, res := .error e }
        | .ok actual =>
          if actual ≠ expectedSHA then
            { fs := fsRemove dt.fs tmp, requests := rr.requests + dt.requests,
              installAttempts := 0, usedDigest := some expectedSHA,
              res := .error (.fault (gs "ffmpeg download sha256 mismatch")) }
          else
            match looksLikeWindowsExeFS dt.fs tmp with
            | .error e =>
              { fs := fsRemove dt.fs tmp, requests := rr.requests + dt.requests,
                installAttempts := 0, usedDigest := some expectedSHA, res := .error e }
            | .ok isExe =>
              if isExe then
                let pr := replaceFileAtomic dt.fs path tmp
                { fs := fsRemove pr.1 tmp, requests := rr.requests + dt.requests,
                  installAttempts := 1, usedDigest := some expectedSHA, res := pr.2 }
              else
                match looksLikeZipFS dt.fs tmp with
                | .error e =>
                  { fs := fsRemove dt.fs tmp, requests := rr.requests + dt.requests,
                    installAttempts := 0, usedDigest := some expectedSHA, res := .error e }
                | .ok isZip =>
                  if isZip then
                    let ex := extractFFmpegFromZip env dt.fs tmp path
                    { fs := fsRemove ex.fs tmp, requests := rr.requests + dt.requests,
                      installAttempts := ex.installAttempts,
                      usedDigest := some expectedSHA, res := ex.res }
                  else
                    { fs := fsRemove dt.fs tmp, requests := rr.requests + dt.requests,
                      installAttempts := 0, usedDigest := some expectedSHA,
                      res := .error (.fault (gs "unsupported ffmpeg download format")) }
  else
    { fs := fs, requests := 0, installAttempts := 0, usedDigest := none,
      res := .error (.fault (gs "no download source configured for " ++ name)) }

/-- `appDir`: per-user cache directory plus the app folder. -/
def appDir (env : Env) : GoStr := env.userCacheDir ++ gs "/ytgui"

/-- Result of `EnsureBinaryWithProgressCtx`. -/
structure EnsureRes where
  fs : FS
  requests : Nat
  installAttempts : Nat
  wroteEmbedded : Bool
  downloadInvoked : Bool
  res : Except GoErr GoStr

/-- `EnsureBinaryWithProgressCtx` from `binaries.go`: return the target path
immediately when it exists; otherwise write the embedded payload when one is
supplied (`len(data) > 0`), else provision by download. -/
def EnsureBinaryWithProgressCtx (env : Env) (fs : FS) (name : GoStr) (data : Bytes) : EnsureRes :=
  let path := appDir env ++ gs "/" ++ name
  match fs path with
  | some _ =>
    { fs := fs, requests := 0, installAttempts := 0, wroteEmbedded := false,
      downloadInvoked := false, res := .ok path }
  | none =>
    if 0 < data.length then
      { fs := fsWrite fs path data, requests := 0, installAttempts := 0,
        wroteEmbedded := true, downloadInvoked := false, res := .ok path }
    else
      let d := downloadBinaryByName env fs name path
      { fs := d.fs, requests := d.requests, installAttempts := d.installAttempts,
        wroteEmbedded := false, downloadInvoked := true,
        res := match d.res with | .ok _ => .ok path | .error e => .error e }

/-! ## Updater (`downloadLatest`, checksum-verified revision) -/

/-- Result of the updater's `downloadLatest`. -/
structure ULRes where
  fs : FS
  requests : Nat
  renamed : Bool
  usedDigest : Option GoStr
  res : Except GoErr Unit

/-- The updater's `downloadLatest`: resolve the expected digest with the same
`resolveYTDLPSHA256` procedure as provisioning, GET the release binary, stage
it at `path + ".new"` while hashing the stream, check the `MZ` signature and
the digest, and only then rename the staging sibling over the target.  Any
failure removes the sibling. -/
def downloadLatest (env : Env) (fs : FS) (path : GoStr) : ULRes :=
  let rr := resolveYTDLPSHA256 env
  match rr.res with
  | .error e =>
    { fs := fs, requests := rr.requests, renamed := false, usedDigest := none,
      res := .error e }
  | .ok expectedSHA =>
    match env.doGet latestBinaryURL with
    | .error e =>
      { fs := fs, requests := rr.requests + 1, renamed := false,
        usedDigest := some expectedSHA, res := .error e }
    | .ok body =>
      let tmp := path ++ gs ".new"
      let fs1 := fsWrite fs tmp []
      if body.length < 2 then
        { fs := fsRemove fs1 tmp, requests := rr.requests + 1, renamed := false,
          usedDigest := some expectedSHA,
          res := .error (.fault (gs "unable to inspect download")) }
      else if body.take 2 ≠ [77, 90] then
        { fs := fsRemove fs1 tmp, requests := rr.requests + 1, renamed := false,
          usedDigest := some expectedSHA,
          res := .error (.fault (gs "downloaded file does not look like a Windows executable")) }
      else
        let fs2 := fsWrite fs1 tmp body
        if env.hash body ≠ expectedSHA then
          { fs := fsRemove fs2 tmp, requests := rr.requests + 1, renamed := false,
            usedDigest := some expectedSHA,
            res := .error (.fault (gs "yt-dlp.exe sha256 mismatch")) }
        else
          { fs := fsWrite (fsRemove fs2 tmp) path body, requests := rr.requests + 1,
            renamed := true, usedDigest := some expectedSHA, res := .ok () }

/-! ## General helpers -/

theorem ne_append_right (p q : GoStr) (hq : q ≠ []) : p ≠ p ++ q := by
  intro h
  have := congrArg List.length h
  simp only [List.length_append] at this
  have : q.length = 0 := by omega
  exact hq (List.eq_nil_of_length_eq_zero this)

/-- Concrete offline oracle environment used by witnesses. -/
def cEnv : Env :=
  { hash := fun _ => []
    userCacheDir := gs "/c"
    envYTDLPSHA := []
    envFFmpegSHA := []
    envFFmpegSHAURL := []
    envFFmpegURLVal := []
    fetchText := fun _ => .error (.fault (gs "offline"))
    attempts := fun _ _ => .error .deadlineExceeded
    doGet := fun _ => .error (.fault (gs "offline"))
    tmpName := fun _ => gs "/tmp/t"
    readZip := fun _ => .error (.fault (gs "zip"))
    ctxCanceled := false }

/-- Concrete filesystem with just the yt-dlp target present. -/
def cFS1 : FS := fun q => if q = gs "/c/ytgui/yt-dlp.exe" then some [77, 90] else none

/-- Concrete empty filesystem. -/
def cFS0 : FS := fun _ => none

/-! ## Claim theorems -/

/-- C9: if the canonical target path already exists, `EnsureBinary`
(`EnsureBinaryWithProgressCtx`) returns that path successfully, performs no
network request, and leaves the whole filesystem — in particular the
target's bytes — unchanged. -/
theorem C9_ensure_existing_target_no_network
    (env : Env) (fs : FS) (name : GoStr) (data : Bytes) (b : Bytes)
    (hex : fs (appDir env ++ gs "/" ++ name) = some b) :
    (EnsureBinaryWithProgressCtx env fs name data).res = .ok (appDir env ++ gs "/" ++ name) ∧
    (EnsureBinaryWithProgressCtx env fs name data).requests = 0 ∧
    (EnsureBinaryWithProgressCtx env fs name data).fs = fs := by
  unfold EnsureBinaryWithProgressCtx
  rw [List.append_assoc] at hex
  simp [hex]

/-- Witness for C9 at a concrete environment and filesystem. -/
theorem C9_witness :
    (EnsureBinaryWithProgressCtx cEnv cFS1 (gs "yt-dlp.exe") []).res =
      .ok (appDir cEnv ++ gs "/" ++ gs "yt-dlp.exe") ∧
    (EnsureBinaryWithProgressCtx cEnv cFS1 (gs "yt-dlp.exe") []).requests = 0 ∧
    (EnsureBinaryWithProgressCtx cEnv cFS1 (gs "yt-dlp.exe") []).fs = cFS1 :=
  C9_ensure_existing_target_no_network cEnv cFS1 (gs "yt-dlp.exe") [] [77, 90] (by decide)

/-- C10: when the target path does not exist and the embedded byte slice is
empty (length 0, which covers both `nil` and a non-nil empty slice — the code
tests `len(data) > 0`), `EnsureBinary` takes the download-and-verify path:
the download orchestrator is invoked, nothing is written from the embedded
payload, and the result is exactly the download branch's result. -/
theorem C10_ensure_empty_embedded_downloads
    (env : Env) (fs : FS) (name : GoStr) (data : Bytes)
    (hnone : fs (appDir env ++ gs "/" ++ name) = none)
    (hlen : data.length = 0) :
    (EnsureBinaryWithProgressCtx env fs name data).downloadInvoked = true ∧
    (EnsureBinaryWithProgressCtx env fs name data).wroteEmbedded = false ∧
    (EnsureBinaryWithProgressCtx env fs name data).fs =
      (downloadBinaryByName env fs name (appDir env ++ gs "/" ++ name)).fs ∧
    (EnsureBinaryWithProgressCtx env fs name data).requests =
      (downloadBinaryByName env fs name (appDir env ++ gs "/" ++ name)).requests := by
  unfold EnsureBinaryWithProgressCtx
  rw [List.append_assoc] at hnone
  simp [hnone, hlen]

/-- Witness for C10 at a concrete environment (empty filesystem, empty
embedded slice). -/
theorem C10_witness :
    (EnsureBinaryWithProgressCtx cEnv cFS0 (gs "yt-dlp.exe") []).downloadInvoked = true ∧
    (EnsureBinaryWithProgressCtx cEnv cFS0 (gs "yt-dlp.exe") []).wroteEmbedded = false ∧
    (EnsureBinaryWithProgressCtx cEnv cFS0 (gs "yt-dlp.exe") []).fs =
      (downloadBinaryByName cEnv cFS0 (gs "yt-dlp.exe") (appDir cEnv ++ gs "/" ++ gs "yt-dlp.exe")).fs ∧
    (EnsureBinaryWithProgressCtx cEnv cFS0 (gs "yt-dlp.exe") []).requests =
      (downloadBinaryByName cEnv cFS0 (gs "yt-dlp.exe") (appDir cEnv ++ gs "/" ++ gs "yt-dlp.exe")).requests :=
  C10_ensure_empty_embedded_downloads cEnv cFS0 (gs "yt-dlp.exe") [] (by decide) (by decide)

/-- A fresh tracker with two stages, as built by
`newDownloadProgressTracker` for a non-audio-only quality without
subtitles. -/
def trackerTwoStages : downloadProgressTracker :=
  { totalStages := 2, stageIndex := 0, hasStage := false, stageProgress := 0, seenDest := [] }

/-- The three lines of the spec's tracker scenario. -/
def c5Lines : List GoStr :=
  [gs "[download] Destination: a.mp4", gs "[download] 42.0% of ...",
   gs "[Merger] Merging formats..."]

/-- C5 counterexample: the scenario's tracker with `totalStages = 2` fed the
three scenario lines does NOT return the fractions 0.0, 0.21, 0.45 — the
`[Merger]` line yields `(totalStages − 0.1) / totalStages = 0.95`, not
0.45. -/
theorem C5_counterexample :
    runFractions trackerTwoStages c5Lines ≠ [0, 21/100, 9/20] := by
  simp +decide [runFractions, downloadProgressTracker.update,
    downloadProgressTracker.update.updateTail, c5Lines, trackerTwoStages,
    trimSpace, destMarker, gs, strStarts, parseProgress, percentFind,
    matchTagAt, matchPercentAfter, isPerlSpace, digitsVal, containsSub,
    compactStatus, etaFind, matchETAAt, isGoSpace]
  all_goals norm_num

/-- C5 (amended): the tracker with `totalStages = 2` (the tracker
`newDownloadProgressTracker` builds for a non-audio-only quality without
subtitles and no playlist) fed the three scenario lines returns the
fractions 0.0, 0.21, 0.95 in that order. -/
theorem C5_amended_scenario_fractions :
    newDownloadProgressTracker (gs "Best") false false = some trackerTwoStages ∧
    runFractions trackerTwoStages c5Lines = [0, 21/100, 19/20] := by
  constructor
  · simp +decide [newDownloadProgressTracker, trackerTwoStages, gs]
  · simp +decide [runFractions, downloadProgressTracker.update,
    downloadProgressTracker.update.updateTail, c5Lines, trackerTwoStages,
    trimSpace, destMarker, gs, strStarts, parseProgress, percentFind,
    matchTagAt, matchPercentAfter, isPerlSpace, digitsVal, containsSub,
    compactStatus, etaFind, matchETAAt, isGoSpace]
    all_goals norm_num

/-- C3 counterexample: emitted fractions are not non-decreasing for every
line sequence — a `[Merger]` line before the first destination marker emits
0.95, and the following destination marker emits 0.0. -/
theorem C3_counterexample :
    ¬ List.Chain' (· ≤ ·)
      (runFractions trackerTwoStages
        [gs "[Merger] Merging formats...", gs "[download] Destination: a.mp4"]) := by
  intro h
  have he : runFractions trackerTwoStages
      [gs "[Merger] Merging formats...", gs "[download] Destination: a.mp4"] =
      [19/20, 0] := by
    simp +decide [runFractions, downloadProgressTracker.update,
    downloadProgressTracker.update.updateTail, c5Lines, trackerTwoStages,
    trimSpace, destMarker, gs, strStarts, parseProgress, percentFind,
    matchTagAt, matchPercentAfter, isPerlSpace, digitsVal, containsSub,
    compactStatus, etaFind, matchETAAt, isGoSpace]
    all_goals norm_num
  rw [he] at h
  have := List.Chain'.rel_head h
  norm_num at this

/-- C4 counterexample: the returned fraction can exceed 1 — a percentage
line reporting 300.0% on a two-stage tracker yields fraction 3/2. -/
theorem C4_counterexample :
    ((trackerTwoStages.update (gs "[download] Destination: a.mp4")).state.update
        (gs "[download] 300.0% of x")).frac = 3/2 ∧
    ¬ (((trackerTwoStages.update (gs "[download] Destination: a.mp4")).state.update
        (gs "[download] 300.0% of x")).frac ≤ 1) := by
  constructor <;>
  · simp +decide [runFractions, downloadProgressTracker.update,
    downloadProgressTracker.update.updateTail, c5Lines, trackerTwoStages,
    trimSpace, destMarker, gs, strStarts, parseProgress, percentFind,
    matchTagAt, matchPercentAfter, isPerlSpace, digitsVal, containsSub,
    compactStatus, etaFind, matchETAAt, isGoSpace]
    all_goals norm_num

/-- The one-line manifest carrying two digests used against C6. -/
def c6Line : GoStr := List.replicate 64 'a' ++ [' '] ++ List.replicate 64 'b'

/-- C6 counterexample: a manifest whose single non-empty line carries TWO
digests and does not name the requested file is still accepted —
`parseSHA256FromList` returns the first digest, while the claim
("exactly when … a single digest") predicts an error. -/
theorem C6_counterexample :
    (sha256Matches (trimSpace c6Line)).length = 2 ∧
    namesTarget (trimSpace c6Line) (gs "yt-dlp.exe") = false ∧
    parseSHA256FromList c6Line (gs "yt-dlp.exe") = .ok (List.replicate 64 'a') := by decide

/-- C7 counterexample: an archive entry named `ffmpeg.exe` at the archive
root ends with the wanted base name (case-insensitively), yet the selection
loop requires the suffix `"/ffmpeg.exe"` and therefore finds no candidate;
extraction fails with an error. -/
theorem C7_counterexample :
    strEnds (gs "ffmpeg.exe") (toLowerStr (toSlash (gs "ffmpeg.exe"))) = true ∧
    selectFFmpegEntry [⟨gs "ffmpeg.exe", [77, 90]⟩] = none ∧
    (extractFFmpegFromZip
        { cEnv with readZip := fun _ => .ok [⟨gs "ffmpeg.exe", [77, 90]⟩] }
        (fun q => if q = gs "/tmp/z" then some [80, 75, 3, 4] else none)
        (gs "/tmp/z") (gs "/c/ytgui/ffmpeg.exe")).res =
      .error (.fault (gs "ffmpeg.exe not found in archive")) := by decide

/-- The candidate predicate actually used by `extractFFmpegFromZip`: the
lowered slash-normalized entry path ends with `"/ffmpeg.exe"`. -/
def isFFmpegCandidate (f : ZipEntry) : Bool :=
  strEnds (gs "/ffmpeg.exe") (toLowerStr (toSlash f.name))

/-- A candidate whose path contains `"/bin/ffmpeg.exe"`. -/
def hasBinFFmpeg (f : ZipEntry) : Bool :=
  isFFmpegCandidate f && containsSub (toLowerStr (toSlash f.name)) (gs "/bin/ffmpeg.exe")

theorem getLastOpt_cons {α : Type} (a : α) (l : List α) :
    (a :: l).getLast? = some (l.getLastD a) := by
  induction l generalizing a with
  | nil => rfl
  | cons b l ih => rw [List.getLast?_cons_cons, ih, List.getLastD_cons]

theorem selectFold_some (l : List ZipEntry) (s : ZipEntry) :
    l.foldl selectFFmpegStep (some s) = some ((l.filter hasBinFFmpeg).getLastD s) := by
  induction l generalizing s with
  | nil => simp
  | cons f l ih =>
    by_cases hc : isFFmpegCandidate f
    · by_cases hb : containsSub (toLowerStr (toSlash f.name)) (gs "/bin/ffmpeg.exe")
      · have hstep : selectFFmpegStep (some s) f = some f := by
          simp [selectFFmpegStep, isFFmpegCandidate] at hc ⊢
          simp [hc, hb]
        have hfil : (f :: l).filter hasBinFFmpeg = f :: l.filter hasBinFFmpeg := by
          simp [List.filter_cons, hasBinFFmpeg, hc, hb]
        rw [List.foldl_cons, hstep, ih, hfil, List.getLastD_cons]
      · have hstep : selectFFmpegStep (some s) f = some s := by
          simp [selectFFmpegStep, isFFmpegCandidate] at hc ⊢
          simp [hc, hb]
        have hfil : (f :: l).filter hasBinFFmpeg = l.filter hasBinFFmpeg := by
          simp [List.filter_cons, hasBinFFmpeg, hb]
        rw [List.foldl_cons, hstep, ih, hfil]
    · have hstep : selectFFmpegStep (some s) f = some s := by
        simp [selectFFmpegStep, isFFmpegCandidate] at hc ⊢
        simp [hc]
      have hfil : (f :: l).filter hasBinFFmpeg = l.filter hasBinFFmpeg := by
        simp [List.filter_cons, hasBinFFmpeg, isFFmpegCandidate] at hc ⊢
        intro h
        simp [h] at hc
      rw [List.foldl_cons, hstep, ih, hfil]

theorem selectFold_characterization (l : List ZipEntry) :
    selectFFmpegEntry l =
      match (l.filter hasBinFFmpeg).getLast? with
      | some b => some b
      | none => (l.filter isFFmpegCandidate).head? := by
  induction l with
  | nil => simp [selectFFmpegEntry]
  | cons f l ih =>
    unfold selectFFmpegEntry at ih ⊢
    by_cases hc : isFFmpegCandidate f
    · have hstep : selectFFmpegStep none f = some f := by
        simp [selectFFmpegStep, isFFmpegCandidate] at hc ⊢
        simp [hc]
      rw [List.foldl_cons, hstep, selectFold_some]
      have hfilc : (f :: l).filter isFFmpegCandidate = f :: l.filter isFFmpegCandidate := by
        simp [List.filter_cons, hc]
      by_cases hb : containsSub (toLowerStr (toSlash f.name)) (gs "/bin/ffmpeg.exe")
      · have hfil : (f :: l).filter hasBinFFmpeg = f :: l.filter hasBinFFmpeg := by
          simp [List.filter_cons, hasBinFFmpeg, hc, hb]
        rw [hfil, getLastOpt_cons]
      · have hfil : (f :: l).filter hasBinFFmpeg = l.filter hasBinFFmpeg := by
          simp [List.filter_cons, hasBinFFmpeg, hb]
        rw [hfil, hfilc]
        rw [List.getLastD_eq_getLast? f (l.filter hasBinFFmpeg)]
        cases hgl : (l.filter hasBinFFmpeg).getLast? with
        | none => simp
        | some b => simp
    · have hstep : selectFFmpegStep none f = none := by
        simp [selectFFmpegStep, isFFmpegCandidate] at hc ⊢
        simp [hc]
      have hfilc : (f :: l).filter isFFmpegCandidate = l.filter isFFmpegCandidate := by
        simp [List.filter_cons, hc]
      have hfil : (f :: l).filter hasBinFFmpeg = l.filter hasBinFFmpeg := by
        simp [List.filter_cons, hasBinFFmpeg, isFFmpegCandidate] at hc ⊢
        intro h
        simp [h] at hc
      rw [List.foldl_cons, hstep, hfil, hfilc]
      exact ih

/-- C7 (amended): in `extractFFmpegFromZip`, an entry is a candidate exactly
when its lowered slash-normalized path ends with `"/ffmpeg.exe"` (the wanted
base name preceded by a path separator — a root-level `ffmpeg.exe` is NOT a
candidate); among candidates, the LAST one whose path contains
`"/bin/ffmpeg.exe"` is selected if any exists, otherwise the first candidate
in archive order; and when there is no candidate the extraction returns an
error. -/
theorem C7_amended_candidate_selection
    (entries : List ZipEntry) (env : Env) (fs : FS) (zipPath dst : GoStr) (zipBytes : Bytes)
    (hz : fs zipPath = some zipBytes) (hr : env.readZip zipBytes = .ok entries) :
    (selectFFmpegEntry entries =
      match (entries.filter hasBinFFmpeg).getLast? with
      | some b => some b
      | none => (entries.filter isFFmpegCandidate).head?) ∧
    (entries.filter isFFmpegCandidate = [] →
      (extractFFmpegFromZip env fs zipPath dst).res =
        .error (.fault (gs "ffmpeg.exe not found in archive"))) := by
  refine ⟨selectFold_characterization entries, fun hnone => ?_⟩
  have hbin : entries.filter hasBinFFmpeg = [] := by
    rw [List.filter_eq_nil_iff] at hnone ⊢
    intro f hf hb
    exact hnone f hf (by simpa [hasBinFFmpeg] using (Bool.and_elim_left (by simpa [hasBinFFmpeg] using hb)))
  have hsel : selectFFmpegEntry entries = none := by
    rw [selectFold_characterization, hbin, hnone]
    rfl
  unfold extractFFmpegFromZip
  simp only [hz, hr, hsel]

/-- Witness for C7 (amended) at a concrete archive: a non-bin candidate
followed by a deeper `bin` candidate; the bin candidate is selected. -/
theorem C7_witness :
    (selectFFmpegEntry
        [⟨gs "x/ffmpeg.exe", [77, 90]⟩, ⟨gs "a/bin/ffmpeg.exe", [77, 90]⟩] =
      match
        ([⟨gs "x/ffmpeg.exe", [77, 90]⟩,
          (⟨gs "a/bin/ffmpeg.exe", [77, 90]⟩ : ZipEntry)].filter hasBinFFmpeg).getLast? with
      | some b => some b
      | none =>
        ([⟨gs "x/ffmpeg.exe", [77, 90]⟩,
          (⟨gs "a/bin/ffmpeg.exe", [77, 90]⟩ : ZipEntry)].filter isFFmpegCandidate).head?) ∧
    ([⟨gs "x/ffmpeg.exe", [77, 90]⟩,
      (⟨gs "a/bin/ffmpeg.exe", [77, 90]⟩ : ZipEntry)].filter isFFmpegCandidate = [] →
      (extractFFmpegFromZip
          { cEnv with readZip := fun _ => Except.ok [⟨gs "x/ffmpeg.exe", [77, 90]⟩, ⟨gs "a/bin/ffmpeg.exe", [77, 90]⟩] }
          (fun q => if q = gs "/tmp/z" then some [80, 75, 3, 4] else none)
          (gs "/tmp/z") (gs "/c/ytgui/ffmpeg.exe")).res =
        .error (.fault (gs "ffmpeg.exe not found in archive"))) :=
  C7_amended_candidate_selection
    [⟨gs "x/ffmpeg.exe", [77, 90]⟩, ⟨gs "a/bin/ffmpeg.exe", [77, 90]⟩]
    { cEnv with readZip := fun _ => Except.ok [⟨gs "x/ffmpeg.exe", [77, 90]⟩, ⟨gs "a/bin/ffmpeg.exe", [77, 90]⟩] }
    (fun q => if q = gs "/tmp/z" then some [80, 75, 3, 4] else none)
    (gs "/tmp/z") (gs "/c/ytgui/ffmpeg.exe") [80, 75, 3, 4] (by decide) (by decide)

/-- The first digest (lowered) that a scan of the trimmed manifest lines
encounters, as `parseSHA256FromList` accumulates `firstDigest`. -/
def linesDigest (lines : List GoStr) : Option GoStr :=
  (((lines.map trimSpace).filterMap (fun l => (sha256Matches l).head?)).head?).map toLowerStr

/-- Number of non-empty trimmed manifest lines. -/
def linesCount (lines : List GoStr) : Nat :=
  ((lines.map trimSpace).filter (· ≠ [])).length

theorem parseSHA256Lines_no_name (tn tb : GoStr) (lines : List GoStr)
    (hno : ∀ l ∈ lines, sha256Matches (trimSpace l) ≠ [] →
      namesTarget (trimSpace l) tb = false) :
    ∀ (fd : Option GoStr) (n : Nat),
    parseSHA256Lines tn tb lines fd n =
      match (match fd with | some d => some d | none => linesDigest lines) with
      | some d =>
        if n + linesCount lines = 1 then .ok d
        else .error (gs "no sha256 found for " ++ tn)
      | none => .error (gs "no sha256 found for " ++ tn) := by
  induction lines with
  | nil =>
    intro fd n
    cases fd with
    | none => rfl
    | some d => simp [parseSHA256Lines, linesCount, linesDigest]
  | cons l rest ih =>
    intro fd n
    have hnoRest : ∀ x ∈ rest, sha256Matches (trimSpace x) ≠ [] →
        namesTarget (trimSpace x) tb = false :=
      fun x hx => hno x (List.mem_cons_of_mem l hx)
    by_cases he : trimSpace l = []
    · have hm : sha256Matches (trimSpace l) = [] := by rw [he]; rfl
      rw [show parseSHA256Lines tn tb (l :: rest) fd n =
          parseSHA256Lines tn tb rest fd n by
        simp [parseSHA256Lines, he]]
      rw [ih hnoRest fd n]
      have hdig : linesDigest (l :: rest) = linesDigest rest := by
        simp [linesDigest, List.filterMap_cons, hm]
      have hcnt : linesCount (l :: rest) = linesCount rest := by
        simp [linesCount, List.filter_cons, he]
      rw [hdig, hcnt]
    · cases hm : sha256Matches (trimSpace l) with
      | nil =>
        rw [show parseSHA256Lines tn tb (l :: rest) fd n =
            parseSHA256Lines tn tb rest fd (n + 1) by
          simp [parseSHA256Lines, he, hm]]
        rw [ih hnoRest fd (n + 1)]
        have hdig : linesDigest (l :: rest) = linesDigest rest := by
          simp [linesDigest, List.filterMap_cons, hm]
        have hcnt : linesCount (l :: rest) = linesCount rest + 1 := by
          simp [linesCount, List.filter_cons, he]
        rw [hdig, hcnt]
        have harith : n + 1 + linesCount rest = n + (linesCount rest + 1) := by omega
        rw [harith]
      | cons m ms =>
        have hname : namesTarget (trimSpace l) tb = false :=
          hno l (List.mem_cons_self l rest) (by rw [hm]; exact List.cons_ne_nil m ms)
        rw [show parseSHA256Lines tn tb (l :: rest) fd n =
            parseSHA256Lines tn tb rest
              (match fd with | some d => some d | none => some (toLowerStr m)) (n + 1) by
          simp [parseSHA256Lines, he, hm, hname]]
        rw [ih hnoRest _ (n + 1)]
        have hdig : linesDigest (l :: rest) = some (toLowerStr m) := by
          simp [linesDigest, List.filterMap_cons, hm]
        have hcnt : linesCount (l :: rest) = linesCount rest + 1 := by
          simp [linesCount, List.filter_cons, he]
        rw [hdig, hcnt]
        have harith : n + 1 + linesCount rest = n + (linesCount rest + 1) := by omega
        rw [harith]
        cases fd with
        | none => rfl
        | some d => rfl

/-- C6 (amended): for every manifest text none of whose digest-carrying
lines names the requested file, `parseSHA256FromList` succeeds exactly when
the manifest contains exactly one non-empty line and that line carries AT
LEAST ONE digest, in which case it returns the (lowered) first digest on
that line; otherwise it returns an error.  (The claim's "a single digest" is
too strong: a sole line carrying several digests is also accepted, yielding
the first.) -/
theorem C6_amended_single_line_fallback
    (text targetName : GoStr) (d : GoStr)
    (hbase : toLowerStr (pathBase (trimSpace targetName)) ≠ [])
    (hno : ∀ l ∈ splitLines text, sha256Matches (trimSpace l) ≠ [] →
      namesTarget (trimSpace l) (toLowerStr (pathBase (trimSpace targetName))) = false) :
    parseSHA256FromList text targetName = .ok d ↔
      (linesCount (splitLines text) = 1 ∧ linesDigest (splitLines text) = some d) := by
  unfold parseSHA256FromList
  rw [if_neg hbase]
  rw [parseSHA256Lines_no_name targetName _ (splitLines text) hno none 0]
  cases hld : linesDigest (splitLines text) with
  | none =>
    simp only []
    constructor
    · intro h
      cases h
    · intro ⟨_, h2⟩
      cases h2
  | some d0 =>
    simp only [Nat.zero_add]
    by_cases hc : linesCount (splitLines text) = 1
    · rw [if_pos hc]
      constructor
      · intro h
        cases h
        exact ⟨hc, rfl⟩
      · intro ⟨_, h2⟩
        cases h2
        rfl
    · rw [if_neg hc]
      constructor
      · intro h
        cases h
      · intro ⟨h1, _⟩
        exact absurd h1 hc

/-- Witness for C6 (amended): a one-line manifest that is just a digest and
does not name the target resolves to that digest. -/
theorem C6_witness :
    parseSHA256FromList (List.replicate 64 'c') (gs "yt-dlp.exe") =
      .ok (List.replicate 64 'c') :=
  (C6_amended_single_line_fallback (List.replicate 64 'c') (gs "yt-dlp.exe")
      (List.replicate 64 'c') (by decide) (by decide)).mpr ⟨by decide, by decide⟩

theorem shouldRetry_statusFault (st : GoStr) :
    shouldRetryDownload (.statusFault st) = false := rfl

/-- C8: with cancellation not raised, (a) when every one of the three
attempts fails with a retryable (timeout-class) error — which covers any
N ≥ 3 consecutive timeout failures, since only the first three attempts are
ever made — `downloadToTemp` returns the third (final) attempt's error after
exactly `maxDownloadAttempts - 1 = 2` backoff waits and exactly three
requests; and (b) a non-success HTTP status error on any attempt `k` (after
retryable failures before it) is returned immediately: exactly `k` requests
and `k - 1` waits, with no further retries. -/
theorem C8_retry_bound_and_fatal_status
    (env : Env) (url pfx : GoStr) (fs : FS)
    (hcan : env.ctxCanceled = false) :
    ((∀ i, 1 ≤ i → i ≤ maxDownloadAttempts →
        ∃ e, env.attempts url i = .error e ∧ shouldRetryDownload e = true) →
      ∃ e3, env.attempts url maxDownloadAttempts = .error e3 ∧
        (downloadToTemp env fs url pfx).res = .error e3 ∧
        (downloadToTemp env fs url pfx).waits = maxDownloadAttempts - 1 ∧
        (downloadToTemp env fs url pfx).requests = maxDownloadAttempts) ∧
    (∀ k st, 1 ≤ k → k ≤ maxDownloadAttempts →
      (∀ i, 1 ≤ i → i < k →
        ∃ e, env.attempts url i = .error e ∧ shouldRetryDownload e = true) →
      env.attempts url k = .error (.statusFault st) →
      (downloadToTemp env fs url pfx).res = .error (.statusFault st) ∧
      (downloadToTemp env fs url pfx).waits = k - 1 ∧
      (downloadToTemp env fs url pfx).requests = k) := by
  constructor
  · intro hall
    obtain ⟨e1, h1, r1⟩ := hall 1 (by omega) (by simp [maxDownloadAttempts])
    obtain ⟨e2, h2, r2⟩ := hall 2 (by omega) (by simp [maxDownloadAttempts])
    obtain ⟨e3, h3, r3⟩ := hall 3 (by omega) (by simp [maxDownloadAttempts])
    refine ⟨e3, h3, ?_⟩
    simp [downloadToTemp, maxDownloadAttempts, dtLoop, downloadToTempOnce,
      h1, h2, h3, r1, r2, r3, hcan]
  · intro k st hk1 hk3 hprev hst
    simp only [maxDownloadAttempts] at hk3
    interval_cases k
    · simp [downloadToTemp, maxDownloadAttempts, dtLoop, downloadToTempOnce,
        hst, hcan, shouldRetryDownload]
    · obtain ⟨e1, h1, r1⟩ := hprev 1 (by omega) (by omega)
      simp [downloadToTemp, maxDownloadAttempts, dtLoop, downloadToTempOnce,
        h1, r1, hst, hcan, shouldRetry_statusFault]
    · obtain ⟨e1, h1, r1⟩ := hprev 1 (by omega) (by omega)
      obtain ⟨e2, h2, r2⟩ := hprev 2 (by omega) (by omega)
      simp [downloadToTemp, maxDownloadAttempts, dtLoop, downloadToTempOnce,
        h1, r1, h2, r2, hst, hcan, shouldRetry_statusFault]

/-- Offline environment whose every attempt times out. -/
def cEnvTimeout : Env :=
  { cEnv with attempts := fun _ _ => .error .deadlineExceeded }

/-- Witness for C8: three consecutive timeouts produce the final timeout
error after two waits and three requests. -/
theorem C8_witness :
    ∃ e3, cEnvTimeout.attempts (gs "u") maxDownloadAttempts = .error e3 ∧
      (downloadToTemp cEnvTimeout cFS0 (gs "u") (gs "p")).res = .error e3 ∧
      (downloadToTemp cEnvTimeout cFS0 (gs "u") (gs "p")).waits = maxDownloadAttempts - 1 ∧
      (downloadToTemp cEnvTimeout cFS0 (gs "u") (gs "p")).requests = maxDownloadAttempts :=
  (C8_retry_bound_and_fatal_status cEnvTimeout (gs "u") (gs "p") cFS0 rfl).1
    (fun _ _ _ => ⟨.deadlineExceeded, rfl, rfl⟩)

theorem dtLoop_ok_fs (env : Env) (url pfx : GoStr) (fs : FS) :
    ∀ (fuel attempt waits requests : Nat) (tmp : GoStr),
    (dtLoop env url pfx fs fuel attempt waits requests).res = .ok tmp →
    ∃ b, (dtLoop env url pfx fs fuel attempt waits requests).fs = fsWrite fs tmp b := by
  intro fuel
  induction fuel with
  | zero =>
    intro attempt waits requests tmp h
    cases h
  | succ fuel ih =>
    intro attempt waits requests tmp h
    rcases ha : env.attempts url attempt with e | body
    · simp only [dtLoop, downloadToTempOnce, ha] at h ⊢
      rcases hc : env.ctxCanceled with _ | _
      · simp only [hc, Bool.false_eq_true, if_false] at h ⊢
        rcases hbr : (decide (attempt = maxDownloadAttempts) || !shouldRetryDownload e) with _ | _
        · simp only [hbr, Bool.false_eq_true, if_false] at h ⊢
          exact ih _ _ _ _ h
        · simp only [hbr, if_true] at h
          cases h
      · simp only [hc, if_true] at h
        cases h
    · simp only [dtLoop, downloadToTempOnce, ha] at h ⊢
      cases h
      exact ⟨body, rfl⟩

/-- C1: for both tools, whenever digest resolution succeeds with `expected`,
the download succeeds leaving payload bytes whose hash differs from
`expected`, `downloadBinaryByName` returns an error, the downloaded temp
file is removed, `replaceFileAtomic` is never invoked, and the bytes at the
target path are identical to their pre-call state. -/
theorem C1_checksum_mismatch_never_installs
    (env : Env) (fs : FS) (path expected tmp : GoStr) (payload : Bytes) :
    (((resolveYTDLPSHA256 env).res = .ok expected →
      (downloadToTemp env fs latestBinaryURL (gs "ytgui-ytdlp-*")).res = .ok tmp →
      (downloadToTemp env fs latestBinaryURL (gs "ytgui-ytdlp-*")).fs tmp = some payload →
      env.hash payload ≠ expected →
      path ≠ tmp →
      (∃ m, (downloadBinaryByName env fs (gs "yt-dlp.exe") path).res = .error (.fault m)) ∧
      (downloadBinaryByName env fs (gs "yt-dlp.exe") path).installAttempts = 0 ∧
      (downloadBinaryByName env fs (gs "yt-dlp.exe") path).fs tmp = none ∧
      (downloadBinaryByName env fs (gs "yt-dlp.exe") path).fs path = fs path)) ∧
    ((resolveFFmpegSHA256 env (ffmpegSourceURL env)).res = .ok expected →
      (downloadToTemp env fs (ffmpegSourceURL env) (gs "ytgui-ffmpeg-*")).res = .ok tmp →
      (downloadToTemp env fs (ffmpegSourceURL env) (gs "ytgui-ffmpeg-*")).fs tmp = some payload →
      env.hash payload ≠ expected →
      path ≠ tmp →
      (∃ m, (downloadBinaryByName env fs (gs "ffmpeg.exe") path).res = .error (.fault m)) ∧
      (downloadBinaryByName env fs (gs "ffmpeg.exe") path).installAttempts = 0 ∧
      (downloadBinaryByName env fs (gs "ffmpeg.exe") path).fs tmp = none ∧
      (downloadBinaryByName env fs (gs "ffmpeg.exe") path).fs path = fs path) := by
  constructor
  · intro hres hdl hfs hmis hneq
    obtain ⟨b, hb⟩ :=
      dtLoop_ok_fs env latestBinaryURL (gs "ytgui-ytdlp-*") fs
        maxDownloadAttempts 1 0 0 tmp hdl
    rw [show dtLoop env latestBinaryURL (gs "ytgui-ytdlp-*") fs maxDownloadAttempts 1 0 0 =
        downloadToTemp env fs latestBinaryURL (gs "ytgui-ytdlp-*") from rfl] at hb
    have hbp : b = payload := by
      rw [hb] at hfs
      simpa [fsWrite] using hfs
    rw [hbp] at hb
    have hcompute :
        computeFileSHA256 env
          (downloadToTemp env fs latestBinaryURL (gs "ytgui-ytdlp-*")).fs tmp =
          .ok (env.hash payload) := by
      rw [hb]
      simp [computeFileSHA256, fsWrite]
    simp only [downloadBinaryByName]
    rw [if_pos (by decide : toLowerStr (gs "yt-dlp.exe") = gs "yt-dlp.exe")]
    simp only [hres, hdl, hcompute]
    rw [if_pos hmis]
    refine ⟨⟨gs "yt-dlp.exe sha256 mismatch", rfl⟩, rfl, ?_, ?_⟩
    · simp [fsRemove]
    · rw [hb]
      simp [fsRemove, fsWrite, hneq]
  · intro hres hdl hfs hmis hneq
    obtain ⟨b, hb⟩ :=
      dtLoop_ok_fs env (ffmpegSourceURL env) (gs "ytgui-ffmpeg-*") fs
        maxDownloadAttempts 1 0 0 tmp hdl
    rw [show dtLoop env (ffmpegSourceURL env) (gs "ytgui-ffmpeg-*") fs maxDownloadAttempts 1 0 0 =
        downloadToTemp env fs (ffmpegSourceURL env) (gs "ytgui-ffmpeg-*") from rfl] at hb
    have hbp : b = payload := by
      rw [hb] at hfs
      simpa [fsWrite] using hfs
    rw [hbp] at hb
    have hcompute :
        computeFileSHA256 env
          (downloadToTemp env fs (ffmpegSourceURL env) (gs "ytgui-ffmpeg-*")).fs tmp =
          .ok (env.hash payload) := by
      rw [hb]
      simp [computeFileSHA256, fsWrite]
    simp only [downloadBinaryByName]
    rw [if_neg (by decide : ¬ toLowerStr (gs "ffmpeg.exe") = gs "yt-dlp.exe")]
    rw [if_pos (by decide : toLowerStr (gs "ffmpeg.exe") = gs "ffmpeg.exe")]
    simp only [hres, hdl, hcompute]
    rw [if_pos hmis]
    refine ⟨⟨gs "ffmpeg download sha256 mismatch", rfl⟩, rfl, ?_, ?_⟩
    · simp [fsRemove]
    · rw [hb]
      simp [fsRemove, fsWrite, hneq]

/-- A mismatching environment: digest override set to 64 a's, every download
succeeds with bytes hashing to a different value. -/
def cEnvMis : Env :=
  { cEnv with
      envYTDLPSHA := List.replicate 64 'a'
      attempts := fun _ _ => Except.ok [1, 2, 3]
      hash := fun _ => gs "bad" }

/-- Witness for C1 at the mismatching environment. -/
theorem C1_witness :
    (∃ m, (downloadBinaryByName cEnvMis cFS0 (gs "yt-dlp.exe") (gs "/c/ytgui/yt-dlp.exe")).res =
        .error (.fault m)) ∧
    (downloadBinaryByName cEnvMis cFS0 (gs "yt-dlp.exe") (gs "/c/ytgui/yt-dlp.exe")).installAttempts = 0 ∧
    (downloadBinaryByName cEnvMis cFS0 (gs "yt-dlp.exe") (gs "/c/ytgui/yt-dlp.exe")).fs (gs "/tmp/t") = none ∧
    (downloadBinaryByName cEnvMis cFS0 (gs "yt-dlp.exe") (gs "/c/ytgui/yt-dlp.exe")).fs
        (gs "/c/ytgui/yt-dlp.exe") = cFS0 (gs "/c/ytgui/yt-dlp.exe") :=
  (C1_checksum_mismatch_never_installs cEnvMis cFS0 (gs "/c/ytgui/yt-dlp.exe")
      (List.replicate 64 'a') (gs "/tmp/t") [1, 2, 3]).1
    (by decide) (by decide) (by decide) (by decide) (by decide)

theorem downloadBinaryByName_usedDigest_ytdlp
    (env : Env) (fs : FS) (path expected : GoStr)
    (hres : (resolveYTDLPSHA256 env).res = .ok expected) :
    (downloadBinaryByName env fs (gs "yt-dlp.exe") path).usedDigest = some expected := by
  simp only [downloadBinaryByName]
  rw [if_pos (by decide : toLowerStr (gs "yt-dlp.exe") = gs "yt-dlp.exe")]
  simp only [hres]
  rcases hdt : (downloadToTemp env fs latestBinaryURL (gs "ytgui-ytdlp-*")).res with e | tmp
  · simp [hdt]
  · simp only [hdt]
    rcases hcf : computeFileSHA256 env
        (downloadToTemp env fs latestBinaryURL (gs "ytgui-ytdlp-*")).fs tmp with e | actual
    · simp [hcf]
    · simp only [hcf]
      repeat' first | rfl | split

/-- C2: the updater's `downloadLatest` verifies the staged payload against
the digest obtained by `resolveYTDLPSHA256` — literally the same
checksum-resolution procedure that provisioning (`downloadBinaryByName`)
uses for yt-dlp — before any rename over the target; with a payload whose
hash differs from the resolved digest (and likewise on the earlier signature
checks) the call errors, the target is never renamed over, the staging
sibling `path + ".new"` is removed, and the target's bytes are unchanged. -/
theorem C2_update_checksum_verified_before_rename
    (env : Env) (fs : FS) (path expected : GoStr) (body : Bytes)
    (hres : (resolveYTDLPSHA256 env).res = .ok expected)
    (hget : env.doGet latestBinaryURL = .ok body)
    (hmis : env.hash body ≠ expected) :
    (downloadLatest env fs path).usedDigest = some expected ∧
    (downloadLatest env fs path).usedDigest =
      (downloadBinaryByName env fs (gs "yt-dlp.exe") path).usedDigest ∧
    (∃ m, (downloadLatest env fs path).res = .error (.fault m)) ∧
    (downloadLatest env fs path).renamed = false ∧
    (downloadLatest env fs path).fs (path ++ gs ".new") = none ∧
    (downloadLatest env fs path).fs path = fs path := by
  have hnp : path ≠ path ++ gs ".new" := ne_append_right path (gs ".new") (by decide)
  rw [downloadBinaryByName_usedDigest_ytdlp env fs path expected hres]
  simp only [downloadLatest, hres, hget]
  by_cases h2 : body.length < 2
  · rw [if_pos h2]
    exact ⟨rfl, rfl, ⟨_, rfl⟩, rfl, by simp [fsRemove], by simp [fsRemove, fsWrite, hnp]⟩
  · rw [if_neg h2]
    by_cases hmz : body.take 2 ≠ [77, 90]
    · rw [if_pos hmz]
      exact ⟨rfl, rfl, ⟨_, rfl⟩, rfl, by simp [fsRemove], by simp [fsRemove, fsWrite, hnp]⟩
    · rw [if_neg hmz]
      rw [if_pos hmis]
      exact ⟨rfl, rfl, ⟨_, rfl⟩, rfl, by simp [fsRemove], by simp [fsRemove, fsWrite, hnp]⟩

/-- Mismatching update environment: the body carries the `MZ` signature but
hashes to the wrong value. -/
def cEnvMisGet : Env :=
  { cEnvMis with doGet := fun _ => Except.ok [77, 90, 5] }

/-- Witness for C2 at the mismatching update environment. -/
theorem C2_witness :
    (downloadLatest cEnvMisGet cFS0 (gs "/c/ytgui/yt-dlp.exe")).usedDigest =
      some (List.replicate 64 'a') ∧
    (downloadLatest cEnvMisGet cFS0 (gs "/c/ytgui/yt-dlp.exe")).usedDigest =
      (downloadBinaryByName cEnvMisGet cFS0 (gs "yt-dlp.exe") (gs "/c/ytgui/yt-dlp.exe")).usedDigest ∧
    (∃ m, (downloadLatest cEnvMisGet cFS0 (gs "/c/ytgui/yt-dlp.exe")).res = .error (.fault m)) ∧
    (downloadLatest cEnvMisGet cFS0 (gs "/c/ytgui/yt-dlp.exe")).renamed = false ∧
    (downloadLatest cEnvMisGet cFS0 (gs "/c/ytgui/yt-dlp.exe")).fs
        (gs "/c/ytgui/yt-dlp.exe" ++ gs ".new") = none ∧
    (downloadLatest cEnvMisGet cFS0 (gs "/c/ytgui/yt-dlp.exe")).fs (gs "/c/ytgui/yt-dlp.exe") =
      cFS0 (gs "/c/ytgui/yt-dlp.exe") :=
  C2_update_checksum_verified_before_rename cEnvMisGet cFS0 (gs "/c/ytgui/yt-dlp.exe")
    (List.replicate 64 'a') [77, 90, 5] (by decide) (by decide) (by decide)

/-! ## Tracker invariants -/

/-- Is this raw line a destination marker (checked on the trimmed line, as
`update` does)? -/
def isDestLine (l : GoStr) : Bool := strStarts destMarker (trimSpace l)

/-- The destination path announced by a marker line, if any. -/
def destOf (l : GoStr) : Option GoStr :=
  if isDestLine l then some (trimSpace ((trimSpace l).drop destMarker.length)) else none

/-- A non-marker line allowed by the amended monotonicity statement: it
carries no merge or subtitle-embed marker and any percentage it reports is
at most 100%. -/
def benignLine (l : GoStr) : Bool :=
  !containsSub (trimSpace l) (gs "[Merger]") &&
  !containsSub (trimSpace l) (gs "[EmbedSubtitle]") &&
  (match parseProgress l with | some p => decide (p ≤ 1) | none => true)

/-- Bounds maintained by every update whose percentage lines stay ≤ 100%. -/
def Bounded (T : Nat) (t : downloadProgressTracker) : Prop :=
  t.totalStages = T ∧ 1 ≤ T ∧ 0 ≤ t.stageProgress ∧ t.stageProgress ≤ 1 ∧
  t.stageIndex + 1 ≤ T

theorem matchPercentAfter_nonneg (s txt : GoStr) (v : ℚ)
    (h : matchPercentAfter s = some (txt, v)) : 0 ≤ v := by
  simp only [matchPercentAfter] at h
  repeat' split at h
  all_goals cases h
  all_goals positivity

theorem percentFind_nonneg (l : GoStr) (txt : GoStr) (v : ℚ)
    (h : percentFind l = some (txt, v)) : 0 ≤ v := by
  induction l with
  | nil => cases h
  | cons c rest ih =>
    unfold percentFind at h
    rcases hm : matchTagAt (c :: rest) with _ | after
    · simp only [hm] at h
      exact ih h
    · simp only [hm] at h
      rcases hp : matchPercentAfter after with _ | r
      · simp only [hp] at h
        exact ih h
      · simp only [hp] at h
        cases h
        exact matchPercentAfter_nonneg after txt v hp

theorem parseProgress_nonneg (l : GoStr) (p : ℚ)
    (h : parseProgress l = some p) : 0 ≤ p := by
  unfold parseProgress at h
  rcases hf : percentFind l with _ | ⟨txt, v⟩
  · simp only [hf, Option.map_none'] at h
    cases h
  · simp only [hf, Option.map_some'] at h
    cases h
    have hv := percentFind_nonneg l txt v hf
    positivity

theorem new_tracker_spec (q : GoStr) (sub playlist : Bool) (t : downloadProgressTracker)
    (h : newDownloadProgressTracker q sub playlist = some t) :
    1 ≤ t.totalStages ∧ t.stageIndex = 0 ∧ t.hasStage = false ∧
    t.stageProgress = 0 ∧ t.seenDest = [] := by
  unfold newDownloadProgressTracker at h
  split at h
  · cases h
  · cases h
    refine ⟨?_, rfl, rfl, rfl, rfl⟩
    dsimp only
    repeat' split
    all_goals omega

theorem update_dest_nostage (t : downloadProgressTracker) (l : GoStr)
    (hd : isDestLine l = true)
    (hns : t.seenDest.contains (trimSpace ((trimSpace l).drop destMarker.length)) = false)
    (hs : t.hasStage = false) :
    (t.update l).updated = true ∧
    (t.update l).frac = 0 ∧
    (t.update l).state =
      { totalStages := t.totalStages, stageIndex := 0, hasStage := true, stageProgress := 0,
        seenDest := trimSpace ((trimSpace l).drop destMarker.length) :: t.seenDest } := by
  unfold isDestLine at hd
  simp only [downloadProgressTracker.update, hd, if_true, hns, Bool.false_eq_true, if_false, hs,
    Bool.not_false, if_true]
  simp

theorem update_dest_stage_inc (t : downloadProgressTracker) (l : GoStr)
    (hd : isDestLine l = true)
    (hns : t.seenDest.contains (trimSpace ((trimSpace l).drop destMarker.length)) = false)
    (hs : t.hasStage = true)
    (hlt : t.stageIndex < t.totalStages - 1) :
    (t.update l).updated = true ∧
    (t.update l).frac = ((t.stageIndex + 1 : ℕ) : ℚ) / (t.totalStages : ℚ) ∧
    (t.update l).state =
      { totalStages := t.totalStages, stageIndex := t.stageIndex + 1, hasStage := true,
        stageProgress := 0,
        seenDest := trimSpace ((trimSpace l).drop destMarker.length) :: t.seenDest } := by
  unfold isDestLine at hd
  simp only [downloadProgressTracker.update, hd, if_true, hns, Bool.false_eq_true, if_false, hs,
    Bool.not_true, if_false, hlt, if_true]
  simp [hs]

theorem update_pct (t : downloadProgressTracker) (l : GoStr) (p : ℚ)
    (hd : isDestLine l = false)
    (hp : parseProgress l = some p)
    (hs : t.hasStage = true) :
    (t.update l).updated = true ∧
    (t.update l).frac =
      ((t.stageIndex : ℚ) + (if p < t.stageProgress then t.stageProgress else p)) /
        (t.totalStages : ℚ) ∧
    (t.update l).state =
      { totalStages := t.totalStages, stageIndex := t.stageIndex, hasStage := true,
        stageProgress := if p < t.stageProgress then t.stageProgress else p,
        seenDest := t.seenDest } := by
  unfold isDestLine at hd
  simp only [downloadProgressTracker.update, hd, Bool.false_eq_true, if_false, hp, hs, if_true]
  simp [hs]

theorem updateTail_silent (t : downloadProgressTracker) (l : GoStr)
    (hm1 : containsSub l (gs "[Merger]") = false)
    (hm2 : containsSub l (gs "[EmbedSubtitle]") = false) :
    downloadProgressTracker.update.updateTail t l =
      { state := t, frac := 0, status := [], updated := false } := by
  simp [downloadProgressTracker.update.updateTail, hm1, hm2]

theorem update_to_tail (t : downloadProgressTracker) (l : GoStr)
    (hd : isDestLine l = false)
    (h : parseProgress l = none ∨ t.hasStage = false) :
    t.update l = downloadProgressTracker.update.updateTail t (trimSpace l) := by
  unfold isDestLine at hd
  rcases hp : parseProgress l with _ | p
  · simp only [downloadProgressTracker.update, hd, Bool.false_eq_true, if_false, hp]
  · rcases h with h | h
    · rw [hp] at h
      cases h
    · simp only [downloadProgressTracker.update, hd, Bool.false_eq_true, if_false, hp, h,
        if_false]

theorem update_dest_seen (t : downloadProgressTracker) (l : GoStr)
    (hd : isDestLine l = true)
    (hcs : t.seenDest.contains (trimSpace ((trimSpace l).drop destMarker.length)) = true) :
    (t.update l).updated = true ∧
    (t.update l).frac = (t.stageIndex : ℚ) / (t.totalStages : ℚ) ∧
    (t.update l).state = t := by
  unfold isDestLine at hd
  simp only [downloadProgressTracker.update, hd, if_true, hcs]
  simp

theorem update_dest_cap (t : downloadProgressTracker) (l : GoStr)
    (hd : isDestLine l = true)
    (hns : t.seenDest.contains (trimSpace ((trimSpace l).drop destMarker.length)) = false)
    (hs : t.hasStage = true)
    (hnlt : ¬ t.stageIndex < t.totalStages - 1) :
    (t.update l).updated = true ∧
    (t.update l).frac = (t.stageIndex : ℚ) / (t.totalStages : ℚ) ∧
    (t.update l).state =
      { totalStages := t.totalStages, stageIndex := t.stageIndex, hasStage := t.hasStage,
        stageProgress := t.stageProgress,
        seenDest := trimSpace ((trimSpace l).drop destMarker.length) :: t.seenDest } := by
  unfold isDestLine at hd
  simp only [downloadProgressTracker.update, hd, if_true, hns, Bool.false_eq_true, if_false, hs,
    Bool.not_true, hnlt]
  simp

theorem updateTail_state (t : downloadProgressTracker) (l : GoStr) :
    (downloadProgressTracker.update.updateTail t l).state = t := by
  unfold downloadProgressTracker.update.updateTail
  repeat' split
  all_goals rfl

theorem updateTail_frac_bounds (T : Nat) (t : downloadProgressTracker) (l : GoStr)
    (hB : Bounded T t) :
    0 ≤ (downloadProgressTracker.update.updateTail t l).frac ∧
    (downloadProgressTracker.update.updateTail t l).frac ≤ 1 := by
  obtain ⟨hT, hT1, _, _, _⟩ := hB
  have hQ : (1 : ℚ) ≤ (t.totalStages : ℚ) := by
    rw [hT]
    exact_mod_cast hT1
  unfold downloadProgressTracker.update.updateTail
  split
  · constructor
    · apply div_nonneg (by linarith) (by linarith)
    · rw [div_le_one (by linarith)]
      linarith
  · split
    · constructor
      · apply div_nonneg (by linarith) (by linarith)
      · rw [div_le_one (by linarith)]
        linarith
    · simp

theorem update_bounded (T : Nat) (t : downloadProgressTracker) (l : GoStr)
    (hB : Bounded T t) (hp : ∀ p, parseProgress l = some p → p ≤ 1) :
    Bounded T (t.update l).state := by
  obtain ⟨hT, hT1, hsp0, hsp1, hsi⟩ := hB
  by_cases hd : isDestLine l = true
  · by_cases hcs : t.seenDest.contains
        (trimSpace ((trimSpace l).drop destMarker.length)) = true
    · rw [(update_dest_seen t l hd hcs).2.2]
      exact ⟨hT, hT1, hsp0, hsp1, hsi⟩
    · rw [Bool.not_eq_true] at hcs
      rcases hs : t.hasStage with _ | _
      · rw [(update_dest_nostage t l hd hcs hs).2.2]
        exact ⟨hT, hT1, le_refl 0, by norm_num, by show 0 + 1 ≤ T; omega⟩
      · by_cases hlt : t.stageIndex < t.totalStages - 1
        · rw [(update_dest_stage_inc t l hd hcs hs hlt).2.2]
          exact ⟨hT, hT1, le_refl 0, by norm_num, by show t.stageIndex + 1 + 1 ≤ T; omega⟩
        · rw [(update_dest_cap t l hd hcs hs hlt).2.2]
          exact ⟨hT, hT1, hsp0, hsp1, hsi⟩
  · rw [Bool.not_eq_true] at hd
    rcases hpp : parseProgress l with _ | p
    · rw [update_to_tail t l hd (Or.inl hpp), updateTail_state]
      exact ⟨hT, hT1, hsp0, hsp1, hsi⟩
    · rcases hs : t.hasStage with _ | _
      · rw [update_to_tail t l hd (Or.inr hs), updateTail_state]
        exact ⟨hT, hT1, hsp0, hsp1, hsi⟩
      · rw [(update_pct t l p hd hpp hs).2.2]
        refine ⟨hT, hT1, ?_, ?_, hsi⟩
        · dsimp only
          split
          · exact hsp0
          · exact parseProgress_nonneg l p hpp
        · dsimp only
          split
          · exact hsp1
          · exact hp p hpp

theorem update_frac_bounds (T : Nat) (t : downloadProgressTracker) (l : GoStr)
    (hB : Bounded T t) (hp : ∀ p, parseProgress l = some p → p ≤ 1) :
    0 ≤ (t.update l).frac ∧ (t.update l).frac ≤ 1 := by
  obtain ⟨hT, hT1, hsp0, hsp1, hsi⟩ := hB
  have hQ : (1 : ℚ) ≤ (t.totalStages : ℚ) := by
    rw [hT]
    exact_mod_cast hT1
  have hsiQ : (t.stageIndex : ℚ) + 1 ≤ (t.totalStages : ℚ) := by
    have hn : t.stageIndex + 1 ≤ t.totalStages := by omega
    exact_mod_cast hn
  by_cases hd : isDestLine l = true
  · by_cases hcs : t.seenDest.contains
        (trimSpace ((trimSpace l).drop destMarker.length)) = true
    · rw [(update_dest_seen t l hd hcs).2.1]
      constructor
      · positivity
      · rw [div_le_one (by linarith)]
        linarith
    · rw [Bool.not_eq_true] at hcs
      rcases hs : t.hasStage with _ | _
      · rw [(update_dest_nostage t l hd hcs hs).2.1]
        norm_num
      · by_cases hlt : t.stageIndex < t.totalStages - 1
        · rw [(update_dest_stage_inc t l hd hcs hs hlt).2.1]
          have hc : ((t.stageIndex + 1 : ℕ) : ℚ) ≤ (t.totalStages : ℚ) := by
            exact_mod_cast (by omega : t.stageIndex + 1 ≤ t.totalStages)
          constructor
          · positivity
          · rw [div_le_one (by linarith)]
            exact hc
        · rw [(update_dest_cap t l hd hcs hs hlt).2.1]
          constructor
          · positivity
          · rw [div_le_one (by linarith)]
            linarith
  · rw [Bool.not_eq_true] at hd
    rcases hpp : parseProgress l with _ | p
    · rw [update_to_tail t l hd (Or.inl hpp)]
      exact updateTail_frac_bounds T t (trimSpace l) ⟨hT, hT1, hsp0, hsp1, hsi⟩
    · rcases hs : t.hasStage with _ | _
      · rw [update_to_tail t l hd (Or.inr hs)]
        exact updateTail_frac_bounds T t (trimSpace l) ⟨hT, hT1, hsp0, hsp1, hsi⟩
      · rw [(update_pct t l p hd hpp hs).2.1]
        have hple : (if p < t.stageProgress then t.stageProgress else p) ≤ 1 := by
          split
          · exact hsp1
          · exact hp p hpp
        have hpge : 0 ≤ (if p < t.stageProgress then t.stageProgress else p) := by
          split
          · exact hsp0
          · exact parseProgress_nonneg l p hpp
        constructor
        · positivity
        · rw [div_le_one (by linarith)]
          linarith

theorem runState_bounded (T : Nat) (lines : List GoStr) :
    ∀ t, Bounded T t →
    (∀ l ∈ lines, ∀ p, parseProgress l = some p → p ≤ 1) →
    Bounded T (runState t lines) := by
  induction lines with
  | nil =>
    intro t hB _
    exact hB
  | cons l rest ih =>
    intro t hB hall
    rw [runState]
    exact ih _ (update_bounded T t l hB (hall l (List.mem_cons_self l rest)))
      (fun x hx => hall x (List.mem_cons_of_mem l hx))

/-- C4 (amended): for every tracker instance and line sequence in which
every percentage line reports at most 100%, the fraction returned by
`update` lies in `[0, 1]`; and — unconditionally — on percentage-branch
updates (non-marker line carrying a percentage while a stage is active) the
fraction equals `(stageIndex + intraStageFraction) / totalStages` computed
from the post-update state.  (The claim's unconditional `[0, 1]` bound is
false: percentages above 100% push the fraction above 1.) -/
theorem C4_amended_fraction_bounds
    (quality : GoStr) (sub : Bool) (t0 : downloadProgressTracker)
    (h0 : newDownloadProgressTracker quality sub false = some t0)
    (lines : List GoStr) (line : GoStr)
    (hall : ∀ l ∈ lines, ∀ p, parseProgress l = some p → p ≤ 1)
    (hline : ∀ p, parseProgress line = some p → p ≤ 1) :
    (0 ≤ ((runState t0 lines).update line).frac ∧
      ((runState t0 lines).update line).frac ≤ 1) ∧
    (∀ p, isDestLine line = false → parseProgress line = some p →
      (runState t0 lines).hasStage = true →
      ((runState t0 lines).update line).frac =
        ((((runState t0 lines).update line).state.stageIndex : ℚ) +
          ((runState t0 lines).update line).state.stageProgress) /
          (((runState t0 lines).update line).state.totalStages : ℚ)) := by
  obtain ⟨h1, h2, h3, h4, h5⟩ := new_tracker_spec quality sub false t0 h0
  have hB0 : Bounded t0.totalStages t0 := by
    refine ⟨rfl, h1, ?_, ?_, ?_⟩
    · rw [h4]
    · rw [h4]
      norm_num
    · omega
  have hBt : Bounded t0.totalStages (runState t0 lines) :=
    runState_bounded t0.totalStages lines t0 hB0 hall
  constructor
  · exact update_frac_bounds t0.totalStages (runState t0 lines) line hBt hline
  · intro p hd hp hs
    obtain ⟨_, hfrac, hstate⟩ := update_pct (runState t0 lines) line p hd hp hs
    rw [hfrac, hstate]

/-- Witness for C4 (amended) at a concrete tracker and a plain line. -/
theorem C4_witness :
    (0 ≤ ((runState trackerTwoStages []).update (gs "x")).frac ∧
      ((runState trackerTwoStages []).update (gs "x")).frac ≤ 1) ∧
    (∀ p, isDestLine (gs "x") = false → parseProgress (gs "x") = some p →
      (runState trackerTwoStages []).hasStage = true →
      ((runState trackerTwoStages []).update (gs "x")).frac =
        ((((runState trackerTwoStages []).update (gs "x")).state.stageIndex : ℚ) +
          ((runState trackerTwoStages []).update (gs "x")).state.stageProgress) /
          (((runState trackerTwoStages []).update (gs "x")).state.totalStages : ℚ)) :=
  C4_amended_fraction_bounds (gs "Best") false trackerTwoStages
    (by simp +decide [newDownloadProgressTracker, trackerTwoStages, gs]) [] (gs "x")
    (by intro l hl; cases hl)
    (by
      intro p hp
      simp +decide [parseProgress, percentFind, matchTagAt, gs] at hp)

theorem contains_cons_false (a x : GoStr) (l : List GoStr)
    (hne : x ≠ a) (hl : l.contains x = false) : (a :: l).contains x = false := by
  simp_all

theorem chain_runFractions (T : Nat) (lines : List GoStr) :
    ∀ (t : downloadProgressTracker) (f0 : ℚ),
    t.totalStages = T →
    1 ≤ T →
    0 ≤ t.stageProgress →
    t.stageProgress ≤ 1 →
    (t.hasStage = true → t.stageIndex + 1 = t.seenDest.length) →
    (t.hasStage = false → t.stageIndex = 0 ∧ t.stageProgress = 0 ∧ t.seenDest = []) →
    (∀ l ∈ lines, isDestLine l = true ∨ benignLine l = true) →
    (lines.filterMap destOf).Nodup →
    (∀ d ∈ lines.filterMap destOf, t.seenDest.contains d = false) →
    t.seenDest.length + (lines.filterMap destOf).length ≤ T →
    f0 ≤ ((t.stageIndex : ℚ) + t.stageProgress) / (T : ℚ) →
    List.Chain' (· ≤ ·) (f0 :: runFractions t lines) := by
  induction lines with
  | nil =>
    intro t f0 _ _ _ _ _ _ _ _ _ _ _
    exact List.chain'_singleton f0
  | cons l rest ih =>
    intro t f0 hT hT1 hsp0 hsp1 hstage hfresh hlines hnodup hseen hcount hf0
    have hTQ : (0 : ℚ) < (T : ℚ) := by
      have : (1 : ℚ) ≤ (T : ℚ) := by exact_mod_cast hT1
      linarith
    have hlrest : ∀ x ∈ rest, isDestLine x = true ∨ benignLine x = true :=
      fun x hx => hlines x (List.mem_cons_of_mem l hx)
    by_cases hd : isDestLine l = true
    · have hdof : destOf l = some (trimSpace ((trimSpace l).drop destMarker.length)) := by
        simp [destOf, hd]
      have hfm : (l :: rest).filterMap destOf =
          trimSpace ((trimSpace l).drop destMarker.length) :: rest.filterMap destOf := by
        simp [List.filterMap_cons, hdof]
      rw [hfm] at hnodup hseen hcount
      have hdnotseen : t.seenDest.contains
          (trimSpace ((trimSpace l).drop destMarker.length)) = false :=
        hseen _ (List.mem_cons_self _ _)
      have hdnotin : trimSpace ((trimSpace l).drop destMarker.length) ∉
          rest.filterMap destOf := (List.nodup_cons.mp hnodup).1
      have hnodup2 := (List.nodup_cons.mp hnodup).2
      rcases hs : t.hasStage with _ | _
      · obtain ⟨hz1, hz2, hz3⟩ := hfresh hs
        obtain ⟨hu, hfr, hst⟩ := update_dest_nostage t l hd hdnotseen hs
        rw [runFractions, hu, if_pos rfl, hfr, hst]
        rw [List.chain'_cons]
        constructor
        · rw [hz1, hz2] at hf0
          simpa using hf0
        · apply ih
          · exact hT
          · exact hT1
          · exact le_refl 0
          · norm_num
          · intro _
            rw [hz3]
            rfl
          · intro h
            cases h
          · exact hlrest
          · exact hnodup2
          · intro d' hd'
            refine contains_cons_false _ _ _ ?_ ?_
            · intro he
              exact hdnotin (he ▸ hd')
            · exact hseen d' (List.mem_cons_of_mem _ hd')
          · rw [hz3]
            rw [hz3] at hcount
            simp only [List.length_cons, List.length_nil] at hcount ⊢
            omega
          · simp
      · obtain ⟨hl1, hl2⟩ := List.nodup_cons.mp hnodup
        have hsl := hstage hs
        have hlt : t.stageIndex < t.totalStages - 1 := by
          simp only [List.length_cons] at hcount
          omega
        obtain ⟨hu, hfr, hst⟩ := update_dest_stage_inc t l hd hdnotseen hs hlt
        rw [runFractions, hu, if_pos rfl, hfr, hst]
        rw [List.chain'_cons]
        constructor
        · have hstep : ((t.stageIndex : ℚ) + t.stageProgress) / (T : ℚ) ≤
              ((t.stageIndex + 1 : ℕ) : ℚ) / (T : ℚ) := by
            refine (div_le_div_iff_of_pos_right hTQ).mpr ?_
            push_cast
            linarith
          rw [hT]
          exact le_trans hf0 hstep
        · apply ih
          · exact hT
          · exact hT1
          · exact le_refl 0
          · norm_num
          · intro _
            simp only [List.length_cons]
            omega
          · intro h
            cases h
          · exact hlrest
          · exact hnodup2
          · intro d' hd'
            refine contains_cons_false _ _ _ ?_ ?_
            · intro he
              exact hdnotin (he ▸ hd')
            · exact hseen d' (List.mem_cons_of_mem _ hd')
          · simp only [List.length_cons] at hcount ⊢
            omega
          · rw [hT]
            simp
    · have hben : benignLine l = true := (hlines l (List.mem_cons_self l rest)).resolve_left hd
      rw [Bool.not_eq_true] at hd
      have hdof : destOf l = none := by
        simp [destOf, hd]
      have hfm : (l :: rest).filterMap destOf = rest.filterMap destOf := by
        simp [List.filterMap_cons, hdof]
      rw [hfm] at hnodup hseen hcount
      unfold benignLine at hben
      rw [Bool.and_eq_true, Bool.and_eq_true] at hben
      obtain ⟨⟨hb1, hb2⟩, hb3⟩ := hben
      rw [Bool.not_eq_true'] at hb1 hb2
      rcases hp : parseProgress l with _ | p
      · have hr := update_to_tail t l hd (Or.inl hp)
        rw [runFractions, hr, updateTail_silent t (trimSpace l) hb1 hb2]
        apply ih t f0 hT hT1 hsp0 hsp1 hstage hfresh hlrest hnodup hseen hcount hf0
      · have hple : p ≤ 1 := by
          rw [hp] at hb3
          simpa using hb3
        rcases hs : t.hasStage with _ | _
        · have hr := update_to_tail t l hd (Or.inr hs)
          rw [runFractions, hr, updateTail_silent t (trimSpace l) hb1 hb2]
          apply ih t f0 hT hT1 hsp0 hsp1 hstage hfresh hlrest hnodup hseen hcount hf0
        · obtain ⟨hu, hfr, hst⟩ := update_pct t l p hd hp hs
          have hpge : t.stageProgress ≤ (if p < t.stageProgress then t.stageProgress else p) := by
            split
            · exact le_refl _
            · exact le_of_not_lt (by assumption)
          have hple2 : (if p < t.stageProgress then t.stageProgress else p) ≤ 1 := by
            split
            · exact hsp1
            · exact hple
          have hpge0 : 0 ≤ (if p < t.stageProgress then t.stageProgress else p) :=
            le_trans hsp0 hpge
          rw [runFractions, hu, if_pos rfl, hfr, hst]
          rw [List.chain'_cons]
          constructor
          · rw [hT]
            refine le_trans hf0 ?_
            refine (div_le_div_iff_of_pos_right hTQ).mpr ?_
            linarith
          · apply ih
            · exact hT
            · exact hT1
            · exact hpge0
            · exact hple2
            · intro _
              exact hstage hs
            · intro h
              cases h
            · exact hlrest
            · exact hnodup
            · exact hseen
            · exact hcount
            · rw [hT]

/-- C3 (amended): for every tracker instance and every line sequence made of
destination markers and benign lines — no merge or subtitle-embed markers,
every reported percentage at most 100% — with pairwise-distinct destinations
numbering at most `totalStages`, the fractions returned on updates are
non-decreasing.  (Unrestricted, the claim is false: merge/embed markers,
repeated destination markers, destinations beyond the stage budget, and
percentages above 100% each allow a later fraction to drop.) -/
theorem C3_amended_monotone
    (quality : GoStr) (sub : Bool) (t0 : downloadProgressTracker)
    (h0 : newDownloadProgressTracker quality sub false = some t0)
    (lines : List GoStr)
    (hlines : ∀ l ∈ lines, isDestLine l = true ∨ benignLine l = true)
    (hnodup : (lines.filterMap destOf).Nodup)
    (hcount : (lines.filterMap destOf).length ≤ t0.totalStages) :
    List.Chain' (· ≤ ·) (runFractions t0 lines) := by
  obtain ⟨h1, h2, h3, h4, h5⟩ := new_tracker_spec quality sub false t0 h0
  have hchain := chain_runFractions t0.totalStages lines t0 0 rfl h1
    (by rw [h4]) (by rw [h4]; norm_num)
    (by intro hsx; rw [h3] at hsx; cases hsx)
    (by intro _; exact ⟨h2, h4, h5⟩)
    hlines hnodup
    (by intro d _; rw [h5]; rfl)
    (by rw [h5]; simpa using hcount)
    (by rw [h2, h4]; simp)
  exact hchain.tail

/-- Witness for C3 (amended): two distinct destination markers on a
two-stage tracker. -/
theorem C3_witness :
    List.Chain' (· ≤ ·) (runFractions trackerTwoStages
      [gs "[download] Destination: a.mp4", gs "[download] Destination: b.mp4"]) :=
  C3_amended_monotone (gs "Best") false trackerTwoStages
    (by simp +decide [newDownloadProgressTracker, trackerTwoStages, gs])
    [gs "[download] Destination: a.mp4", gs "[download] Destination: b.mp4"]
    (by decide) (by decide) (by decide)

end Ytgui
